import Mathlib

/-!
# Verification of the Finite_Memory_AI bounded-memory controller

Shallow embedding of the core of the repository
(`finite_memory_llm/core.py` and `finite_memory_llm/upgrades/`):
the token-buffer eviction policies, the deterministic context builder,
the latency guard, the knapsack selector and the summary QA gate.

Conventions of the embedding:
* Python `int` becomes `Int` (or `Nat` where the source value is provably
  non-negative), Python `float` becomes `ℚ` (the float values flowing through
  the claims are produced and compared exactly), Python `str` becomes `String`,
  Python lists become `List`.
* A `collections.deque(maxlen=cap)` keeps the *last* `cap` elements pushed into
  it; we model it as a plain list together with the `pyTakeLast` normalisation
  applied by every mutating operation.
* Calls into external collaborators (the generator backend, the embedding
  model, sklearn clustering) are modelled by an `Oracle` structure whose fields
  return `Except Unit _`: `.error ()` models the callable raising an exception,
  `.ok v` models it returning `v`.  Theorems quantify over all oracles, hence
  over all behaviours of the collaborators.
* A Python function that may raise is embedded with result type
  `Except EngineState _` whose `error` payload is the engine state at the point
  the exception escapes (Python mutates `self` in place before raising).
-/

/-! ## Python list / deque primitives -/

/-- The last `cap` elements of `l` (all of `l` when `l.length ≤ cap`).
This is the normalisation a `deque(maxlen := cap)` applies after every push:
elements are dropped from the left until the length is at most `cap`. -/
def pyTakeLast (cap : Nat) (l : List α) : List α := l.drop (l.length - cap)

/-- `deque(init, maxlen=cap)`: constructing a bounded deque from an iterable
keeps the last `cap` elements. -/
def dequeMk (cap : Nat) (l : List α) : List α := pyTakeLast cap l

/-- `d.extend(new)` on a deque with `maxlen = cap`. -/
def dequeExtend (cap : Nat) (buf new : List α) : List α := pyTakeLast cap (buf ++ new)

/-- Python `l[i]`: raises `IndexError` when out of range. -/
def pyIndex (l : List α) (i : Nat) : Except Unit α :=
  match l.get? i with
  | some a => .ok a
  | none => .error ()

/-- Python slice `l[a:b]` (for non-negative bounds): never raises. -/
def pySlice (l : List α) (a b : Nat) : List α := (l.take b).drop a

/-- Python whitespace test used by `str.strip()` (ASCII fragment). -/
def pyIsSpace (c : Char) : Bool :=
  c = ' ' ∨ c = '\t' ∨ c = '\n' ∨ c = '\r' ∨ c = '\x0b' ∨ c = '\x0c'

/-- `str.strip()`: drop leading and trailing whitespace. -/
def pyStrip (s : String) : String :=
  ((s.toList.dropWhile pyIsSpace).reverse.dropWhile pyIsSpace).reverse.asString

/-- `str.split()` with no argument: split on runs of whitespace, no empty parts. -/
def pySplitWs (s : String) : List String :=
  ((s.toList.splitOnP pyIsSpace).filter (fun w => ¬ w.isEmpty)).map List.asString

/-- `np.max` of a (nonempty in all uses) list; `0` models the unreachable
empty case. -/
def npMax (l : List ℚ) : ℚ :=
  match l with
  | [] => 0
  | x :: xs => xs.foldl max x

/-- Elementwise `numpy` addition.  Arrays of equal length add elementwise;
a length-1 array broadcasts; any other shape mismatch raises. -/
def npAdd (a b : List ℚ) : Except Unit (List ℚ) :=
  if a.length = b.length then .ok (List.zipWith (· + ·) a b)
  else if a.length = 1 then .ok (b.map (fun y => a.headD 0 + y))
  else if b.length = 1 then .ok (a.map (fun x => x + b.headD 0))
  else .error ()

/-- Scalar times array. -/
def npScale (c : ℚ) (a : List ℚ) : List ℚ := a.map (fun x => c * x)

/-! ## upgrades/latency_guard.py -/

/-- `guarded_call(func, budget_ms, fallback, timeout_enabled)`.

`func` is the outcome of running the wrapped callable: `.error ()` when it
raises, `.ok (v, elapsed_ms)` when it returns `v` after `elapsed_ms`
wall-clock milliseconds.  With `timeout_enabled` (and `SIGALRM` available) the
OS timer interrupts a run that exceeds the budget, and the resulting
`TimeoutError` is answered with `fallback ()`.  In the default
`timeout_enabled = false` mode the source only *measures* the elapsed time:
when the budget is exceeded it prints a warning but — per the inline comment
"we still return the result since we can't interrupt mid-execution" — returns
`func`'s own result.  A raise from `func` is caught by the outer handler and
answered with `fallback ()` in both modes. -/
def guarded_call (timeout_enabled hasSIGALRM : Bool)
    (func : Except Unit (α × ℚ)) (budget_ms : ℚ) (fallback : Unit → α) : α :=
  if timeout_enabled ∧ hasSIGALRM then
    match func with
    | .error _ => fallback ()
    | .ok (v, elapsed) => if budget_ms < elapsed then fallback () else v
  else
    match func with
    | .error _ => fallback ()
    | .ok (v, _elapsed) => v

/-! ## upgrades/knapsack.py -/

/-- One `(index, start_pos, end_pos, value)` tuple of `choose_under_budget`.
`stop` is the Python field `end` (a reserved word here). -/
structure KItem where
  idx : ℤ
  start : ℤ
  stop : ℤ
  value : ℚ
deriving Repr, DecidableEq

/-- `size = max(1, end - start)`; always at least 1. -/
def ksize (it : KItem) : Nat := max 1 (it.stop - it.start).toNat

/-- `value_per_token = value / size` (exact rational in place of float). -/
def vpt (it : KItem) : ℚ := it.value / (ksize it : ℚ)

/-- `scored.sort(key=lambda x: x[5], reverse=True)` is a *stable* descending
sort; on a list it yields the unique ordering by (value-per-token descending,
original position ascending), which is what `List.insertionSort` with this
relation computes. -/
def greedyRel (a b : KItem) : Prop := vpt b ≤ vpt a

instance : DecidableRel greedyRel := fun a b => inferInstanceAs (Decidable (vpt b ≤ vpt a))

/-- The greedy acceptance loop of `choose_under_budget`: walk the sorted items,
keeping a running `total_size`, and accept an item when the new total still
fits the budget. -/
def greedyGo (budget : ℤ) : List KItem → Nat → List ℤ
  | [], _ => []
  | x :: xs, tot =>
    if (tot + ksize x : ℤ) ≤ budget then x.idx :: greedyGo budget xs (tot + ksize x)
    else greedyGo budget xs tot

/-- Python `sorted` on a list of ints. -/
def sortInts (l : List ℤ) : List ℤ := List.insertionSort (· ≤ ·) l

/-- `choose_under_budget(items, budget)`: greedy value-per-size selection. -/
def choose_under_budget (items : List KItem) (budget : ℤ) : List ℤ :=
  if items.isEmpty ∨ budget ≤ 0 then []
  else sortInts (greedyGo budget (List.insertionSort greedyRel items) 0)

/-- The DP table of `choose_under_budget_dp`, in recursive form over the item
list processed from the *last* item to the first (the argument is the reversed
item list, so `knapRev (items.take i).reverse w = dp[i][w]`):
`dp[i][w] = max(dp[i-1][w], dp[i-1][w-size]+value if size ≤ w)`. -/
def knapRev : List KItem → Nat → ℚ
  | [], _ => 0
  | x :: xs, w =>
    if ksize x ≤ w then max (knapRev xs w) (knapRev xs (w - ksize x) + x.value)
    else knapRev xs w

/-- The backtracking loop of `choose_under_budget_dp`: walk `i` from `n` down
to `1`, taking item `i-1` exactly when `dp[i][w] != dp[i-1][w]`. -/
def backtrackRev : List KItem → Nat → List ℤ
  | [], _ => []
  | x :: xs, w =>
    if knapRev (x :: xs) w ≠ knapRev xs w then x.idx :: backtrackRev xs (w - ksize x)
    else backtrackRev xs w

/-- `choose_under_budget_dp(items, budget)`: exact knapsack by DP. -/
def choose_under_budget_dp (items : List KItem) (budget : ℤ) : List ℤ :=
  if items.isEmpty ∨ budget ≤ 0 then []
  else sortInts (backtrackRev items.reverse budget.toNat)

/-- The items of `items` whose id is in the selection `sel`. -/
def selItems (items : List KItem) (sel : List ℤ) : List KItem :=
  items.filter (fun it => sel.contains it.idx)

/-- Total `max(1, end - start)` size of a selection, as in the spec formula
`sum(size(i) for i in choose_under_budget(items, B))`. -/
def selSize (items : List KItem) (sel : List ℤ) : ℤ :=
  ((selItems items sel).map (fun it => (ksize it : ℤ))).sum

/-- Total value of a selection. -/
def selValue (items : List KItem) (sel : List ℤ) : ℚ :=
  ((selItems items sel).map KItem.value).sum

/-! ## upgrades/summary_qa_gate.py

The gate extracts facts with five `re.findall` patterns plus two string
scanners.  The patterns only use literal characters, the digit class with a
greedy counted repetition, and the word-boundary assertion, so we embed a
small backtracking matcher for exactly that fragment with Python `re`
semantics (leftmost match, greedy quantifier, non-overlapping scan). -/

/-- One element of a regex pattern in the fragment used by the QA gate. -/
inductive RElem where
  /-- a literal character -/
  | lit (c : Char)
  /-- `\d{lo,hi}` (greedy); `hi = none` means unbounded (`\d+` is `digits 1 none`) -/
  | digits (lo : Nat) (hi : Option Nat)
  /-- the word-boundary assertion `\b` -/
  | wb
deriving Repr, DecidableEq

/-- Python `\w` (ASCII fragment): letters, digits, underscore. -/
def isWordChar (c : Char) : Bool := c.isAlphanum || c = '_'

/-- The `\b` assertion holds at `i` iff exactly one of the characters around
position `i` is a word character (positions outside the string count as
non-word). -/
def wordBoundary (s : List Char) (i : Nat) : Bool :=
  let before := decide (0 < i) && (match s.get? (i - 1) with
    | some c => isWordChar c
    | none => false)
  let here := match s.get? i with
    | some c => isWordChar c
    | none => false
  before != here

/-- Length of the run of digit characters starting at position `i`. -/
def digitRun (s : List Char) (i : Nat) : Nat :=
  ((s.drop i).takeWhile Char.isDigit).length

/-- Greedy backtracking over the repetition count of a `digits` element: try
to consume `k` digits (largest first, down to `lo`) and continue with `next`
at the advanced position. -/
def tryK (next : Nat → Option Nat) (lo i : Nat) : Nat → Option Nat
  | 0 => if lo = 0 then next i else none
  | k + 1 =>
    if k + 1 < lo then none
    else
      match next (i + (k + 1)) with
      | some e => some e
      | none => tryK next lo i k

/-- Match a pattern at position `i` of `s`; returns the end position of the
(leftmost-greedy) match anchored at `i`, or `none`. -/
def reMatch (s : List Char) : List RElem → Nat → Option Nat
  | [], i => some i
  | RElem.lit c :: rest, i => if s.get? i = some c then reMatch s rest (i + 1) else none
  | RElem.wb :: rest, i => if wordBoundary s i then reMatch s rest i else none
  | RElem.digits lo hi :: rest, i =>
    let run := digitRun s i
    let top := match hi with
      | some h => min h run
      | none => run
    tryK (fun j => reMatch s rest j) lo i top

/-- The scan loop of `re.findall`: try each start position left to right and
continue after the end of every match (our patterns never match the empty
string, but a zero-width match would advance by one as in CPython). -/
def reFindAux (s : List Char) (p : List RElem) : Nat → Nat → List String
  | 0, _ => []
  | fuel + 1, pos =>
    if s.length < pos then []
    else
      match reMatch s p pos with
      | some e =>
        if pos < e then (pySlice s pos e).asString :: reFindAux s p fuel e
        else (pySlice s pos e).asString :: reFindAux s p fuel (e + 1)
      | none => reFindAux s p fuel (pos + 1)

/-- `re.findall(pattern, text)` for the QA-gate fragment. -/
def reFindall (p : List RElem) (text : String) : List String :=
  reFindAux text.toList p (text.toList.length + 2) 0

/-- `r"\b\d+\.\d+\b"` — decimals. -/
def patDecimal : List RElem := [.wb, .digits 1 none, .lit '.', .digits 1 none, .wb]

/-- `r"\b\d{4}\b"` — years. -/
def patYear : List RElem := [.wb, .digits 4 (some 4), .wb]

/-- `r"\b\d+\b"` — integers. -/
def patInt : List RElem := [.wb, .digits 1 none, .wb]

/-- `r"\d{1,2}/\d{1,2}/\d{2,4}"` — slash dates. -/
def patDateSlash : List RElem :=
  [.digits 1 (some 2), .lit '/', .digits 1 (some 2), .lit '/', .digits 2 (some 4)]

/-- `r"\d{1,2}-\d{1,2}-\d{2,4}"` — dash dates. -/
def patDateDash : List RElem :=
  [.digits 1 (some 2), .lit '-', .digits 1 (some 2), .lit '-', .digits 2 (some 4)]

/-- `SummaryQAGate._extract_numbers`: the union (a Python `set`) of the five
pattern matches. -/
def extractNumbers (text : String) : Finset String :=
  (reFindall patDecimal text ++ reFindall patYear text ++ reFindall patInt text ++
    reFindall patDateSlash text ++ reFindall patDateDash text).toFinset

/-- `re.sub(r"[^\w\s]", "", word)` on a whitespace-free word: keep exactly the
word characters. -/
def cleanWord (w : String) : String := (w.toList.filter isWordChar).asString

/-- `word.endswith((".", "!", "?"))`. -/
def endsWithPunct (w : String) : Bool :=
  w.endsWith "." || w.endsWith "!" || w.endsWith "?"

/-- `SummaryQAGate._extract_proper_names`: capitalized cleaned words that do
not open the text and whose predecessor word does not end a sentence. -/
def extractProperNames (text : String) : Finset String :=
  let words := pySplitWs text
  ((List.range words.length).filterMap (fun i =>
    let clean := cleanWord (words.getD i "")
    match clean.toList with
    | [] => none
    | c :: _ =>
      if c.isUpper ∧ 0 < i ∧ ¬ endsWithPunct (words.getD (i - 1) "") then some clean
      else none)).toFinset

/-- The scan of `re.findall(r q ([^q]+) q, text)` for a quote character `q`:
at a quote, capture the nonempty run of non-quote characters when it is
closed by another quote, then continue after the closing quote; otherwise
advance one position. -/
def quoteScan (q : Char) (s : List Char) : Nat → Nat → List String
  | 0, _ => []
  | fuel + 1, pos =>
    match s.get? pos with
    | none => []
    | some c =>
      if c = q then
        let content := (s.drop (pos + 1)).takeWhile (fun d => d ≠ q)
        if content.length = 0 then quoteScan q s fuel (pos + 1)
        else
          match s.get? (pos + 1 + content.length) with
          | some _ => content.asString :: quoteScan q s fuel (pos + content.length + 2)
          | none => quoteScan q s fuel (pos + 1)
      else quoteScan q s fuel (pos + 1)

/-- `SummaryQAGate._extract_quoted_strings`: double- then single-quoted
contents, as a set. -/
def extractQuotedStrings (text : String) : Finset String :=
  (quoteScan '"' text.toList (text.toList.length + 2) 0 ++
    quoteScan '\x27' text.toList (text.toList.length + 2) 0).toFinset

/-- Number of distinct summary facts absent from the source:
`len(hallucinated_numbers) + len(hallucinated_names) + len(hallucinated_quotes)`. -/
def qaHallucinated (pre_text post_summary : String) : Nat :=
  (extractNumbers post_summary \ extractNumbers pre_text).card +
    (extractProperNames post_summary \ extractProperNames pre_text).card +
    (extractQuotedStrings post_summary \ extractQuotedStrings pre_text).card

/-- Number of distinct facts extracted from the summary. -/
def qaTotalFacts (post_summary : String) : Nat :=
  (extractNumbers post_summary).card + (extractProperNames post_summary).card +
    (extractQuotedStrings post_summary).card

/-- `fidelity = 1.0 - hallucinated / total_facts` (exact rational; the
`total_facts = 0` case never reaches this expression in `verify`). -/
def qaFidelity (pre_text post_summary : String) : ℚ :=
  if qaTotalFacts post_summary = 0 then 1
  else 1 - (qaHallucinated pre_text post_summary : ℚ) / (qaTotalFacts post_summary : ℚ)

/-- `SummaryQAGate.verify(pre_text, post_summary)`: empty summaries and
fact-free summaries pass; otherwise strict mode requires zero hallucinated
facts and lenient mode requires `fidelity ≥ threshold`. -/
def qaVerify (strict : Bool) (threshold : ℚ) (pre_text post_summary : String) : Bool :=
  if pyStrip post_summary = "" then true
  else if qaTotalFacts post_summary = 0 then true
  else if strict then qaHallucinated pre_text post_summary = 0
  else threshold ≤ qaFidelity pre_text post_summary

/-! ## ContextBuilder (core.py) -/

/-- The anchor scan of `ContextBuilder.global_boundaries`: decode each token of
`toks[:-1]` individually and record the position after any sentence-terminal
character.  The whole loop sits in one `try`, and a decode failure abandons
the rest of the scan while keeping the anchors found so far.  The `in` tests
are against single characters, hence character membership. -/
def boundaryScan (decode : List Nat → Except Unit String) : List (Nat × Nat) → List Nat
  | [] => []
  | (i, t) :: rest =>
    match decode [t] with
    | .error _ => []
    | .ok ch =>
      if ch.toList.any (fun c => c = '.' ∨ c = '!' ∨ c = '?' ∨ c = '\n') then
        (i + 1) :: boundaryScan decode rest
      else boundaryScan decode rest

/-- `ContextBuilder.global_boundaries` (the per-sequence cache memoizes this
pure computation keyed by a hash of the tokens, so only the hit counter — not
the returned value — depends on it; the counter never feeds a claim and the
cache is not modelled).  `sorted(set(i for i in idx if 0 <= i < len(toks)))`
is the ascending filter of `range (len toks)`. -/
def globalBoundaries (decode : List Nat → Except Unit String) (toks : List Nat) : List Nat :=
  let idx := 0 :: boundaryScan decode toks.dropLast.enum
  let idx := if toks.isEmpty then idx else idx ++ [toks.length - 1]
  (List.range toks.length).filter (fun i => i ∈ idx)

/-- `ContextBuilder.build(backend, buffer, policy_out)`: return the policy
output unchanged when it already fits, otherwise keep the recent window plus
the anchors, trimmed to the `max_tokens` most recent kept positions, with a
final hard clip.  The second component is the anchor-cache hit delta (the
unmodelled cache makes it `0` here; no claim depends on it).  The `buffer`
argument of the source does not influence the result and is dropped. -/
def contextBuild (decode : List Nat → Except Unit String) (max_tokens window_size : Nat)
    (policy_out : List Nat) : List Nat × Nat :=
  if policy_out.length ≤ max_tokens then (policy_out, 0)
  else
    let anchors := globalBoundaries decode policy_out
    let start := policy_out.length - window_size
    let kept := (List.range policy_out.length).filter (fun i => start ≤ i ∨ i ∈ anchors)
    let kept := if max_tokens < kept.length then kept.drop (kept.length - max_tokens) else kept
    let out := kept.map (fun i => policy_out.getD i 0)
    let out := if max_tokens < out.length then pyTakeLast max_tokens out else out
    (out, 0)

/-! ## Engine data model (core.py) -/

/-- `MemoryStats`, with the two ratio floats as exact rationals. -/
structure MemoryStats where
  tokens_seen : Nat
  tokens_retained : Nat
  cache_hits : Nat
  evictions : Nat
  compression_ratio : ℚ
  summaries_created : Nat
  clusters_merged : Nat
  importance_evictions : Nat
  sparsity_ratio : ℚ
  policy_latency_ms : ℚ
  total_policy_calls : Nat
  fallback_count : Nat
  anchor_cache_hits : Nat
deriving Repr, DecidableEq

/-- The dataclass defaults of `MemoryStats`. -/
def MemoryStats.init : MemoryStats :=
  ⟨0, 0, 0, 0, 1, 0, 0, 0, 1, 0, 0, 0, 0⟩

/-- The mutable state of `CompleteFiniteMemoryLLM` relevant to the memory
engine.  `token_buffer` and `attention_scores` are deques with
`maxlen = max_tokens`; the `has_*` booleans record which optional
collaborators the constructor managed to set up (`self._span_embedder`,
`self.embedding_model`, `self._qa_gate`). -/
structure EngineState where
  max_tokens : Nat
  memory_policy : String
  window_size : Nat
  semantic_clusters : Nat
  summary_interval : Nat
  max_policy_ms : Option ℚ
  has_span_embedder : Bool
  has_embedding_model : Bool
  has_qa_gate : Bool
  token_buffer : List Nat
  attention_scores : List ℚ
  token_embeddings : List (Nat × Nat × Option (List ℚ))
  span_texts : List String
  summary_tokens : List Nat
  tokens_since_summary : Nat
  conversation_history : List (String × String × Nat)
  stats : MemoryStats
deriving Repr, DecidableEq

/-- Behaviour of the external collaborators during one call: the generator
backend (`decode`/`encode`/`generate`), its optional attention capability
(`attention` returns `none` when the backend lacks a local model or the
extraction raises — `_collect_last_token_importance` catches everything),
`hasModel`/`topLogit` for the logit-probe path, the span embedder
(`encodeSpans`, `selectReps`), the legacy sentence-transformers path
(`embedText`, `kmeansReps`) and sklearn KMeans labels for the hybrid policy
(`kmeansLabels`).  `.error ()` models the callable raising. -/
structure Oracle where
  decode : List Nat → Except Unit String
  encode : String → Except Unit (List Nat)
  attention : List Nat → Option (List ℚ)
  hasModel : Bool
  topLogit : List Nat → Except Unit ℚ
  encodeSpans : List (List Nat) → List String → Except Unit (List (List ℚ))
  embedText : String → Except Unit (List ℚ)
  selectReps : List (List ℚ) → Nat → ℚ → Except Unit (List Nat)
  kmeansReps : List (List ℚ) → Nat → Except Unit (List Nat)
  kmeansLabels : List (List ℚ) → Nat → Except Unit (List Nat)
  generate : List Nat → Nat → Except Unit (List Nat)

/-- `CompleteFiniteMemoryLLM.__init__` as far as the engine state is
concerned.  `spanEmbedderOk` / `sentenceTransformerOk` say whether the two
optional constructions succeed; when the legacy sentence-transformers load
fails for the semantic policy the constructor silently rewrites
`memory_policy` to `"sliding"`.  Construction never raises. -/
def mkEngine (max_tokens : Nat) (memory_policy : String)
    (window_size semantic_clusters summary_interval : Nat) (max_policy_ms : Option ℚ)
    (spanEmbedderOk sentenceTransformerOk : Bool) : EngineState :=
  let has_span := ((memory_policy = "semantic" ∨ memory_policy = "hybrid") ∧ spanEmbedderOk : Bool)
  let legacyTry := (memory_policy = "semantic" ∧ ¬ has_span : Bool)
  { max_tokens := max_tokens
    memory_policy := if legacyTry ∧ ¬ sentenceTransformerOk then "sliding" else memory_policy
    window_size := window_size
    semantic_clusters := semantic_clusters
    summary_interval := summary_interval
    max_policy_ms := max_policy_ms
    has_span_embedder := has_span
    has_embedding_model := legacyTry ∧ sentenceTransformerOk
    has_qa_gate := memory_policy = "rolling_summary"
    token_buffer := []
    attention_scores := []
    token_embeddings := []
    span_texts := []
    summary_tokens := []
    tokens_since_summary := 0
    conversation_history := []
    stats := MemoryStats.init }

/-! ## Sliding policy -/

/-- `_evict_sliding`: pop `min(overflow, len)` oldest tokens, count the whole
overflow as evictions, extend with the new tokens (the deque bound applies),
return the buffer. -/
def evictSliding (st : EngineState) (new_tokens : List Nat) : EngineState × List Nat :=
  let n_new := new_tokens.length
  let cur := st.token_buffer.length
  let st :=
    if st.max_tokens < cur + n_new then
      let overflow := cur + n_new - st.max_tokens
      { st with
        token_buffer := st.token_buffer.drop (min overflow cur)
        stats := { st.stats with evictions := st.stats.evictions + overflow } }
    else st
  let buf := dequeExtend st.max_tokens st.token_buffer new_tokens
  ({ st with token_buffer := buf }, buf)

/-! ## Importance policy -/

/-- The recency heuristic of `_importance_via_logit_probes`
(`scores[i] = 0.3 + 0.7 * i / max(len - 1, 1)`), used when the backend has no
local model or the probe raises. -/
def recencyRamp (n : Nat) : List ℚ :=
  (List.range n).map (fun i : Nat => 3 / 10 + 7 / 10 * ((i : ℚ) / ((max (n - 1) 1 : Nat) : ℚ)))

/-- `np.linspace(0, stop, num, dtype=int)`: `num` evenly spaced rationals from
`0` to `stop`, truncated to integers (`num = 1` gives `[0]`). -/
def linspaceNatFloor (stop num : Nat) : List Nat :=
  if num ≤ 1 then [0]
  else (List.range num).map (fun i : Nat => (((i : ℚ) * stop) / ((num : ℚ) - 1)).floor.toNat)

/-- The probing loop of `_importance_via_logit_probes`: for each probed span,
remove it from the context, re-run the model, and add the absolute change of
the top logit to the score of every position of the span.  Any raise from the
model escapes to the enclosing `try`. -/
def probeLoop (orc : Oracle) (ctx : List Nat) (span_size : Nat) (baseline : ℚ) :
    List Nat → List ℚ → Except Unit (List ℚ)
  | [], scores => .ok scores
  | spanIdx :: rest, scores =>
    let start := spanIdx * span_size
    let endp := min (start + span_size) ctx.length
    let masked := ctx.take start ++ ctx.drop endp
    if masked.length < 1 then probeLoop orc ctx span_size baseline rest scores
    else
      match orc.topLogit masked with
      | .error e => .error e
      | .ok m =>
        let delta := |baseline - m|
        let scores := scores.enum.map (fun p =>
          if start ≤ p.1 ∧ p.1 < endp then p.2 + delta else p.2)
        probeLoop orc ctx span_size baseline rest scores

/-- `_importance_via_logit_probes(ctx_ids, n_probes, span_size)`: short
contexts score `1` everywhere; API backends (no local model) get the recency
ramp; otherwise the probe deltas are accumulated and normalized by their
maximum, any raise inside the `try` falling back to the recency ramp. -/
def importanceViaLogitProbes (orc : Oracle) (ctx : List Nat) (n_probes span_size : Nat) :
    List ℚ :=
  if ctx.length < span_size then List.replicate ctx.length 1
  else
    let n_spans := max 1 (ctx.length / span_size)
    let probe_indices := linspaceNatFloor (n_spans - 1) (min n_probes n_spans)
    if ¬ orc.hasModel then recencyRamp ctx.length
    else
      match (orc.topLogit ctx).bind (fun baseline =>
          probeLoop orc ctx span_size baseline probe_indices
            (List.replicate ctx.length 0)) with
      | .ok scores =>
        let m := npMax scores
        if 0 < m then scores.map (fun x => x / m) else scores
      | .error _ => recencyRamp ctx.length

/-- The `max(existing, new)` merge of probe/attention scores into
`self.attention_scores` (positions beyond the incoming array keep their
score). -/
def mergeMax (att imp : List ℚ) : List ℚ :=
  att.enum.map (fun p =>
    match imp.get? p.1 with
    | some s => max p.2 s
    | none => p.2)

/-- The key of `sorted(range(len(cur_list)), key=lambda i: scores[i])`. -/
def importanceKey (scores : List ℚ) (i : Nat) : ℚ := scores.getD i 0

/-- `i` precedes `j` in Python's stable descending sort by score exactly when
`i` scores higher, or the scores tie and `i` is the earlier (smaller) index:
CPython's `sorted(..., reverse=True)` is stable, preserving the ascending
index order of equal keys. -/
def rankRel (scores : List ℚ) (i j : Nat) : Prop :=
  importanceKey scores j < importanceKey scores i ∨
    (importanceKey scores i = importanceKey scores j ∧ i ≤ j)

instance (scores : List ℚ) : DecidableRel (rankRel scores) := fun i j => by
  unfold rankRel
  infer_instance

/-- `ranked = sorted(range(n), key=lambda i: scores[i], reverse=True)` — the
unique `rankRel`-sorted permutation of `range n`. -/
def importanceRanked (scores : List ℚ) (n : Nat) : List Nat :=
  List.insertionSort (rankRel scores) (List.range n)

/-- The importance-score acquisition and merge of `_evict_importance`: try
the attention capability, else (for contexts longer than 32) the logit
probes; when scores arrive, reset a too-short score deque to zeros of the
buffer's length and merge with `max(existing, new)`. -/
def importanceMergedScores (orc : Oracle) (attention_scores : List ℚ)
    (cur_list : List Nat) : List ℚ :=
  let imp : Option (List ℚ) :=
    match orc.attention cur_list with
    | some a => some a
    | none =>
      if 32 < cur_list.length then some (importanceViaLogitProbes orc cur_list 8 32)
      else none
  match imp with
  | none => attention_scores
  | some a =>
    let base :=
      if attention_scores.length < cur_list.length then
        List.replicate cur_list.length (0 : ℚ)
      else attention_scores
    mergeMax base (a.take cur_list.length)

/-- The kept positions of `_evict_importance` in ascending order:
`sorted(keep)` where `keep` unions the top `importance_budget` ranked
positions (when scores line up with the buffer and the budget is positive)
with the trailing recency window. -/
def importanceKeepList (att : List ℚ) (n : Nat) (importance_budget recency_budget : ℤ) :
    List Nat :=
  let keepImp :=
    if att.length = n ∧ 0 < importance_budget then
      (importanceRanked att n).take importance_budget.toNat
    else []
  let recStart := (max 0 ((n : ℤ) - recency_budget)).toNat
  (List.range n).filter (fun i => i ∈ keepImp ∨ recStart ≤ i)

/-- `_evict_importance`.  The only operation that can raise is the
`[self.attention_scores[i] for i in sorted(keep)]` comprehension (when the
score deque is shorter than the buffer and no scores were collected); at that
point the stats and the token buffer have already been updated, which the
`error` payload records. -/
def evictImportance (orc : Oracle) (st : EngineState) (new_tokens : List Nat) :
    Except EngineState (EngineState × List Nat) :=
  let n_new := new_tokens.length
  let cur_list := st.token_buffer
  if cur_list.length + n_new ≤ st.max_tokens then
    let buf := dequeExtend st.max_tokens cur_list new_tokens
    .ok ({ st with
            token_buffer := buf
            attention_scores :=
              dequeExtend st.max_tokens st.attention_scores (List.replicate n_new 0) },
          buf)
  else
    let att := importanceMergedScores orc st.attention_scores cur_list
    let target : ℤ := (st.max_tokens : ℤ) - n_new
    let recency_budget : ℤ := max 64 (Int.fdiv target 4)
    let importance_budget : ℤ := max 0 (target - recency_budget)
    let n := cur_list.length
    let keepList := importanceKeepList att n importance_budget recency_budget
    let new_buf := keepList.map (fun i => cur_list.getD i 0)
    let evicted := (max ((n : ℤ) - new_buf.length) 0).toNat
    let stats := { st.stats with
      evictions := st.stats.evictions + evicted
      importance_evictions := st.stats.importance_evictions + evicted }
    match keepList.mapM (pyIndex att) with
    | .error _ =>
      .error { st with
        token_buffer := dequeMk st.max_tokens new_buf
        attention_scores := att
        stats := stats }
    | .ok gathered =>
      let buf := dequeExtend st.max_tokens (dequeMk st.max_tokens new_buf) new_tokens
      .ok ({ st with
              token_buffer := buf
              attention_scores :=
                dequeExtend st.max_tokens (dequeMk st.max_tokens gathered)
                  (List.replicate n_new 0)
              stats := stats },
            buf)

/-! ## Semantic policy -/

/-- Python `range(0, stop, stride)` for `stride > 0`. -/
def pyRangeStep (stop stride : Nat) : List Nat :=
  (List.range ((stop + stride - 1) / stride)).map (· * stride)

/-- The span-collection loop of `_compute_span_embeddings` (both paths): one
entry per nonempty span whose decode succeeds and whose text is not pure
whitespace; a decode raise skips just that span (`except: continue`).
Entries are `(span, text, start, end)`. -/
def collectSpans (orc : Oracle) (tokens : List Nat) (span_size stride : Nat) :
    List (List Nat × String × Nat × Nat) :=
  (pyRangeStep tokens.length stride).filterMap (fun i =>
    let endp := min (i + span_size) tokens.length
    let span := pySlice tokens i endp
    if span.isEmpty then none
    else
      match orc.decode span with
      | .error _ => none
      | .ok text => if pyStrip text = "" then none else some (span, text, i, endp))

/-- The batch-update loop after `SpanEmbedder.encode_spans`: write embedding
`idx` into placeholder `idx`.  When the oracle returns more embeddings than
placeholders the source raises `IndexError` inside the same `try` after
having updated every placeholder, so the update is simply positionwise. -/
def updateEmbeds (te : List (Nat × Nat × Option (List ℚ))) (embs : List (List ℚ)) :
    List (Nat × Nat × Option (List ℚ)) :=
  te.enum.map (fun p =>
    match embs.get? p.1 with
    | some e => (p.2.1, p.2.2.1, some e)
    | none => p.2)

/-- Per-span loop of the legacy `_compute_span_embeddings` path: decode and
embed each span, skipping spans where either call raises or the text is
whitespace. -/
def collectSpansLegacy (orc : Oracle) (tokens : List Nat) (span_size stride : Nat) :
    List (Nat × Nat × Option (List ℚ)) × List String :=
  let entries := (pyRangeStep tokens.length stride).filterMap (fun i =>
    let endp := min (i + span_size) tokens.length
    let span := pySlice tokens i endp
    if span.isEmpty then none
    else
      match orc.decode span with
      | .error _ => none
      | .ok text =>
        if pyStrip text = "" then none
        else
          match orc.embedText text with
          | .error _ => none
          | .ok emb => some (i, endp, some emb, text))
  (entries.map (fun e => (e.1, e.2.1, e.2.2.1)), entries.map (fun e => e.2.2.2))

/-- `_compute_span_embeddings(tokens, span_size, stride)`: the Tier-1 path
clears and refills `token_embeddings`/`span_texts`, leaving `none`
placeholders when the batch encode raises; without a span embedder the legacy
path runs only when a sentence-transformers model is present. -/
def computeSpanEmbeddings (orc : Oracle) (st : EngineState) (tokens : List Nat)
    (span_size stride : Nat) : EngineState :=
  if st.has_span_embedder ∧ tokens ≠ [] then
    let collected := collectSpans orc tokens span_size stride
    let te := collected.map (fun c => (c.2.2.1, c.2.2.2, (none : Option (List ℚ))))
    let texts := collected.map (fun c => c.2.1)
    let spans := collected.map (fun c => c.1)
    let te :=
      if spans.isEmpty then te
      else
        match orc.encodeSpans spans texts with
        | .ok embs => updateEmbeds te embs
        | .error _ => te
    { st with token_embeddings := te, span_texts := texts }
  else if ¬ st.has_embedding_model ∨ tokens = [] then st
  else
    let (te, texts) := collectSpansLegacy orc tokens span_size stride
    { st with token_embeddings := te, span_texts := texts }

/-- `sorted(set(l))` on span indices. -/
def sortedDedupNat (l : List Nat) : List Nat := List.insertionSort (· ≤ ·) l.dedup

/-- `np.vstack([e for _, _, e in token_embeddings])`: raises when a placeholder
embedding is still `None` (the batch encode failed), or on an empty list. -/
def vstackEmbeds (te : List (Nat × Nat × Option (List ℚ))) : Except Unit (List (List ℚ)) :=
  if te.isEmpty then .error ()
  else te.mapM (fun t =>
    match t.2.2 with
    | some e => .ok e
    | none => .error ())

/-- Rebuild the buffer from the chosen spans: Python clamps each span to the
current buffer (`s = max(0, min(s, len(cur)))`, `e = max(s, min(e, len(cur)))`)
and concatenates the slices; `token_embeddings[span_idx]` raises on an
out-of-range index. -/
def spansToBuf (te : List (Nat × Nat × Option (List ℚ))) (cur : List Nat) :
    List ℤ → Except Unit (List Nat)
  | [] => .ok []
  | idx :: rest =>
    if idx < 0 then .error ()
    else
      match pyIndex te idx.toNat with
      | .error e => .error e
      | .ok (s, ep, _) =>
        let s2 := min s cur.length
        let e2 := max s2 (min ep cur.length)
        match spansToBuf te cur rest with
        | .error e => .error e
        | .ok tl => .ok (pySlice cur s2 e2 ++ tl)

/-- The `try` body of the Tier-1 semantic path: stack the embeddings, ask the
embedder for representative spans, union in the recency spans, then run the
knapsack selection and rebuild the buffer.  Returns the final kept span
indices and the rebuilt buffer; any raise is answered by the caller with the
sliding fallback. -/
def semanticTier1Core (orc : Oracle) (st : EngineState) (cur : List Nat) (n_new : Nat) :
    Except Unit (List ℤ × List Nat) :=
  match vstackEmbeds st.token_embeddings with
  | .error e => .error e
  | .ok embs =>
    match orc.selectReps embs st.semantic_clusters (3 / 20) with
    | .error e => .error e
    | .ok reps =>
      let recency_threshold : ℤ := (cur.length : ℤ) - (st.max_tokens / 4 : Nat)
      let keep1 := reps ++ st.token_embeddings.enum.filterMap (fun p =>
        if recency_threshold ≤ (p.2.1 : ℤ) ∧ p.1 ∉ reps then some p.1 else none)
      let keep2 := sortedDedupNat keep1
      let budget : ℤ := (st.max_tokens : ℤ) - n_new
      let items := st.token_embeddings.enum.filterMap (fun p =>
        if p.1 ∈ keep2 then
          some (⟨(p.1 : ℤ), (p.2.1 : ℤ), (p.2.2.1 : ℤ), ((p.2.2.1 : ℤ) - (p.2.1 : ℤ) : ℚ)⟩ : KItem)
        else none)
      let keep3 := choose_under_budget items budget
      match spansToBuf st.token_embeddings cur (sortInts keep3) with
      | .error e => .error e
      | .ok new_buf => .ok (keep3, new_buf)

/-- The `try` body of the legacy semantic path: stack the embeddings, take one
representative per KMeans cluster (the whole clustering step is the
collaborator), union in the recency spans, and rebuild the buffer. -/
def semanticLegacyCore (orc : Oracle) (st : EngineState) (cur : List Nat) :
    Except Unit (List Nat × List Nat) :=
  match vstackEmbeds st.token_embeddings with
  | .error e => .error e
  | .ok embs =>
    let k := min st.semantic_clusters st.token_embeddings.length
    match orc.kmeansReps embs k with
    | .error e => .error e
    | .ok reps =>
      let recency_threshold : ℤ := (cur.length : ℤ) - (st.max_tokens / 4 : Nat)
      let keep_spans := sortedDedupNat (reps ++ st.token_embeddings.enum.filterMap (fun p =>
        if recency_threshold ≤ (p.2.1 : ℤ) then some p.1 else none))
      match spansToBuf st.token_embeddings cur (keep_spans.map (fun i => (i : ℤ))) with
      | .error e => .error e
      | .ok new_buf => .ok (keep_spans, new_buf)

/-- `_evict_semantic`: append when it fits; otherwise rebuild the buffer from
representative plus recent spans, falling back to `_evict_sliding` when there
are too few spans or anything in the clustering path raises. -/
def evictSemantic (orc : Oracle) (st : EngineState) (new_tokens : List Nat) :
    EngineState × List Nat :=
  let n_new := new_tokens.length
  let cur := st.token_buffer
  if cur.length + n_new ≤ st.max_tokens then
    let buf := dequeExtend st.max_tokens cur new_tokens
    ({ st with token_buffer := buf }, buf)
  else if st.has_span_embedder then
    let st1 := computeSpanEmbeddings orc st cur 64 32
    if st1.token_embeddings.length < max 2 (st.semantic_clusters * 2) then
      evictSliding st1 new_tokens
    else
      match semanticTier1Core orc st1 cur n_new with
      | .error _ => evictSliding st1 new_tokens
      | .ok (keep3, new_buf) =>
        let merged : ℤ := (st1.token_embeddings.length : ℤ) - keep3.length
        let st2 := { st1 with stats := { st1.stats with
          evictions := st1.stats.evictions + (max ((cur.length : ℤ) - new_buf.length) 0).toNat
          clusters_merged := st1.stats.clusters_merged + (max merged 0).toNat } }
        let buf := dequeExtend st2.max_tokens (dequeMk st2.max_tokens new_buf) new_tokens
        ({ st2 with token_buffer := buf }, buf)
  else if ¬ st.has_embedding_model then evictSliding st new_tokens
  else
    let st1 := computeSpanEmbeddings orc st cur 64 32
    if st1.token_embeddings.length < max 2 (st.semantic_clusters * 2) then
      evictSliding st1 new_tokens
    else
      match semanticLegacyCore orc st1 cur with
      | .error _ => evictSliding st1 new_tokens
      | .ok (keep_spans, new_buf) =>
        let merged : ℤ := (st1.token_embeddings.length : ℤ) - keep_spans.length
        let st2 := { st1 with stats := { st1.stats with
          evictions := st1.stats.evictions + (max ((cur.length : ℤ) - new_buf.length) 0).toNat
          clusters_merged := st1.stats.clusters_merged + (max merged 0).toNat } }
        let buf := dequeExtend st2.max_tokens (dequeMk st2.max_tokens new_buf) new_tokens
        ({ st2 with token_buffer := buf }, buf)

/-! ## Rolling-summary policy -/

/-- Python `s[:n]` on a string. -/
def pyTakeChars (s : String) (n : Nat) : String := (s.toList.take n).asString

/-- The summary text computed by `_create_summary` before re-encoding: the
first sentence (or first 200 characters), replaced by a character truncation
of the source when the QA gate (engine settings: lenient, `threshold = 0.75`)
rejects it. -/
def summaryText (has_qa_gate : Bool) (text : String) (max_summary_tokens : Nat) : String :=
  let sentence := (text.splitOn ".").headD ""
  let s := if sentence ≠ "" then pyTakeChars sentence 200 else pyTakeChars text 200
  if has_qa_gate ∧ ¬ qaVerify false (3 / 4) text s then
    pyTakeChars text (max_summary_tokens * 4)
  else s

/-- `_create_summary(tokens, max_summary_tokens)`: decode, compute
`summaryText`, re-encode, count the summary, and cap the ids.  Any raise
inside the `try` (decode/encode) degrades to a token truncation without
counting a summary. -/
def createSummary (orc : Oracle) (st : EngineState) (tokens : List Nat)
    (max_summary_tokens : Nat) : EngineState × List Nat :=
  if tokens.isEmpty then (st, [])
  else
    match (orc.decode tokens).bind (fun text =>
        orc.encode (summaryText st.has_qa_gate text max_summary_tokens)) with
    | .ok ids =>
      ({ st with stats :=
          { st.stats with summaries_created := st.stats.summaries_created + 1 } },
        ids.take max_summary_tokens)
    | .error _ => (st, tokens.take max_summary_tokens)

/-- The summarization phase of `_evict_rolling_summary`: bump
`tokens_since_summary` by the incoming length, and — once the interval has
elapsed *and* the current buffer (before insertion) exceeds the interval —
summarize the older half into the carried summary, re-summarizing the carry
once it outgrows a quarter of the capacity. -/
def rollingSummaryPhase (orc : Oracle) (st : EngineState) (new_tokens : List Nat) :
    EngineState :=
  let st := { st with tokens_since_summary := st.tokens_since_summary + new_tokens.length }
  if st.summary_interval ≤ st.tokens_since_summary ∧
      st.summary_interval < st.token_buffer.length then
    let cutoff := st.token_buffer.length / 2
    let to_sum := st.token_buffer.take cutoff
    let keep_recent := st.token_buffer.drop cutoff
    let cs := createSummary orc st to_sum (min 128 (st.max_tokens / 8))
    let st1 := cs.1
    let summary := cs.2
    let buf1 :=
      if st1.summary_tokens.isEmpty then ([] : List Nat)
      else dequeExtend st1.max_tokens [] st1.summary_tokens
    let buf2 := dequeExtend st1.max_tokens buf1 summary
    let buf3 := dequeExtend st1.max_tokens buf2 keep_recent
    let carried := st1.summary_tokens ++ summary
    let st2 := { st1 with token_buffer := buf3, summary_tokens := carried }
    let st3 :=
      if st2.max_tokens / 4 < carried.length then
        let cs2 := createSummary orc st2 carried (st2.max_tokens / 8)
        { cs2.1 with summary_tokens := cs2.2 }
      else st2
    { st3 with tokens_since_summary := 0 }
  else st

/-- `_evict_rolling_summary`: the summarization phase followed by the
"add new and trim if needed" block, which is verbatim the sliding-window
trim-and-extend of `_evict_sliding`. -/
def evictRollingSummary (orc : Oracle) (st : EngineState) (new_tokens : List Nat) :
    EngineState × List Nat :=
  evictSliding (rollingSummaryPhase orc st new_tokens) new_tokens

/-! ## Hybrid policy -/

/-- The per-span scoring loop of `_evict_hybrid`: each buffer position covered
by span `i` receives `1 / max(cluster_size_of(label_i), 1)`.  An out-of-range
`labels[i]` raises out of the loop with the scores written so far (the
enclosing `except Exception: pass` keeps them, unnormalized). -/
def hybridSemLoop (labels : List Nat) (n : Nat) :
    List (Nat × Nat × Nat × Option (List ℚ)) → List ℚ → Except (List ℚ) (List ℚ)
  | [], scores => .ok scores
  | (i, s, ep, _) :: rest, scores =>
    match labels.get? i with
    | none => .error scores
    | some cid =>
      let uniqueness : ℚ := 1 / (max (labels.count cid) 1 : Nat)
      let scores := scores.enum.map (fun p =>
        if s ≤ p.1 ∧ p.1 < min ep n then uniqueness else p.2)
      hybridSemLoop labels n rest scores

/-- The semantic-score block of `_evict_hybrid` (the `try ... except: pass`
around KMeans): zeros when stacking or clustering raises, the partial scores
when indexing the labels raises mid-loop, otherwise the max-normalized
scores. -/
def hybridSemScores (orc : Oracle) (te : List (Nat × Nat × Option (List ℚ)))
    (clusters n : Nat) : List ℚ :=
  let zeros := List.replicate n (0 : ℚ)
  match vstackEmbeds te with
  | .error _ => zeros
  | .ok embs =>
    match orc.kmeansLabels embs (min clusters te.length) with
    | .error _ => zeros
    | .ok labels =>
      match hybridSemLoop labels n (te.enum.map (fun p => (p.1, p.2))) zeros with
      | .error partialScores => partialScores
      | .ok s =>
        let m := npMax s
        if 0 < m then s.map (fun x => x / m) else s

/-- `_evict_hybrid`: blend importance scores (attention, else logit probes)
with cluster-uniqueness scores as `0.6·imp + 0.4·sem` and keep the top scored
positions plus the recency window.  The blend `0.6 * imp_scores[:len] + 0.4 *
sem_scores` is a bare numpy expression outside any `try`: a shape mismatch
raises out of the policy (the `error` payload is the state after the span
embedding pass). -/
def evictHybrid (orc : Oracle) (st : EngineState) (new_tokens : List Nat) :
    Except EngineState (EngineState × List Nat) :=
  let n_new := new_tokens.length
  let cur_list := st.token_buffer
  if cur_list.length + n_new ≤ st.max_tokens then
    let buf := dequeExtend st.max_tokens cur_list new_tokens
    .ok ({ st with token_buffer := buf }, buf)
  else
    let imp :=
      match orc.attention cur_list with
      | some a => a
      | none => importanceViaLogitProbes orc cur_list 6 32
    let st1 := computeSpanEmbeddings orc st cur_list 64 32
    let sem :=
      if 2 ≤ st1.token_embeddings.length then
        hybridSemScores orc st1.token_embeddings st1.semantic_clusters cur_list.length
      else List.replicate cur_list.length (0 : ℚ)
    match npAdd (npScale (3 / 5) (imp.take cur_list.length)) (npScale (2 / 5) sem) with
    | .error _ => .error st1
    | .ok combined =>
      let target : ℤ := (st1.max_tokens : ℤ) - n_new
      let recency_budget : ℤ := max 64 (Int.fdiv target 4)
      let scored_budget : ℤ := target - recency_budget
      let n := cur_list.length
      let keepImp :=
        if 0 < scored_budget then (importanceRanked combined n).take scored_budget.toNat
        else []
      let recStart := (max 0 ((n : ℤ) - recency_budget)).toNat
      let keepList := (List.range n).filter (fun i => i ∈ keepImp ∨ recStart ≤ i)
      let new_buf := keepList.map (fun i => cur_list.getD i 0)
      let evicted := (max ((n : ℤ) - new_buf.length) 0).toNat
      let st2 := { st1 with stats :=
        { st1.stats with evictions := st1.stats.evictions + evicted } }
      let buf := dequeExtend st2.max_tokens (dequeMk st2.max_tokens new_buf) new_tokens
      .ok ({ st2 with token_buffer := buf }, buf)

/-! ## Policy dispatch and chat -/

/-- `_apply_policy_impl`: string dispatch over the five policies; any other
string silently runs the sliding policy. -/
def applyPolicyImpl (orc : Oracle) (st : EngineState) (new_tokens : List Nat) :
    Except EngineState (EngineState × List Nat) :=
  if st.memory_policy = "sliding" then .ok (evictSliding st new_tokens)
  else if st.memory_policy = "importance" then evictImportance orc st new_tokens
  else if st.memory_policy = "semantic" then .ok (evictSemantic orc st new_tokens)
  else if st.memory_policy = "rolling_summary" then .ok (evictRollingSummary orc st new_tokens)
  else if st.memory_policy = "hybrid" then evictHybrid orc st new_tokens
  else .ok (evictSliding st new_tokens)

/-- `_apply_policy`: count the call; without a latency budget (or under the
sliding policy) run the dispatcher directly, letting any raise escape.  With
a budget the call goes through `guarded_call` (the upgrade modules are part
of the repository, so `_UPGRADES_AVAILABLE` holds) with `timeout_enabled`
false: a successful result is returned whatever its elapsed time, and a raise
runs the counting fallback `_fallback_with_count` on the mutated state. -/
def bumpPolicyCalls (st : EngineState) : EngineState :=
  { st with stats :=
    { st.stats with total_policy_calls := st.stats.total_policy_calls + 1 } }

def bumpFallbacks (st : EngineState) : EngineState :=
  { st with stats :=
    { st.stats with fallback_count := st.stats.fallback_count + 1 } }

def applyPolicy (orc : Oracle) (st : EngineState) (new_tokens : List Nat) :
    Except EngineState (EngineState × List Nat) :=
  let st := bumpPolicyCalls st
  if st.max_policy_ms = none ∨ st.memory_policy = "sliding" then
    applyPolicyImpl orc st new_tokens
  else
    match applyPolicyImpl orc st new_tokens with
    | .ok r => .ok r
    | .error stE => .ok (evictSliding (bumpFallbacks stE) new_tokens)

/-- The dictionary `chat` returns (the live `stats` object is snapshotted). -/
structure ChatResult where
  response : String
  tokens_used : Nat
  context_length : Nat
  stats : MemoryStats
  memory_policy : String
deriving Repr, DecidableEq

/-- The `try` body of `chat`: encode, apply the policy, update the volume
stats, build the context, generate, decode, apply the policy to the reply and
append both turns to the history.  `error` carries the state at the raise for
the `except` branch. -/
def chatBody (orc : Oracle) (st : EngineState) (message : String) (max_new_tokens : Nat) :
    Except EngineState (ChatResult × EngineState) :=
  match orc.encode message with
  | .error _ => .error st
  | .ok msg0 =>
    let msg_tokens := if msg0.isEmpty then [0] else msg0
    match applyPolicy orc st msg_tokens with
    | .error stE => .error stE
    | .ok (st1, policy_out) =>
      let seen := st1.stats.tokens_seen + msg_tokens.length
      let st2 := { st1 with stats := { st1.stats with
        tokens_seen := seen
        tokens_retained := policy_out.length
        compression_ratio := (seen : ℚ) / (max policy_out.length 1 : Nat) } }
      let built := contextBuild orc.decode st2.max_tokens st2.window_size policy_out
      let context_tokens := built.1
      let st3 := { st2 with stats := { st2.stats with
        anchor_cache_hits := st2.stats.anchor_cache_hits + built.2 } }
      match orc.generate context_tokens max_new_tokens with
      | .error _ => .error st3
      | .ok out_seq =>
        let gen0 := out_seq.drop context_tokens.length
        let gen_ids := if gen0.isEmpty then [0] else gen0
        match orc.decode gen_ids with
        | .error _ => .error st3
        | .ok response_text =>
          match applyPolicy orc st3 gen_ids with
          | .error stE => .error stE
          | .ok (st4, _) =>
            let st5 := { st4 with conversation_history := st4.conversation_history ++
              [("user", message, msg_tokens.length),
                ("assistant", response_text, gen_ids.length)] }
            .ok ({ response := response_text
                   tokens_used := gen_ids.length
                   context_length := context_tokens.length
                   stats := st5.stats
                   memory_policy := st5.memory_policy }, st5)

/-- `chat(message, max_new_tokens)`: an empty or whitespace-only message
returns immediately with an empty response and no state change; otherwise the
body runs under a `try` whose `except` branch reports an error response with
the state as mutated so far. -/
def chat (orc : Oracle) (st : EngineState) (message : String) (max_new_tokens : Nat) :
    ChatResult × EngineState :=
  if message = "" ∨ pyStrip message = "" then
    ({ response := ""
       tokens_used := 0
       context_length := st.token_buffer.length
       stats := st.stats
       memory_policy := st.memory_policy }, st)
  else
    match chatBody orc st message max_new_tokens with
    | .ok r => r
    | .error stE =>
      ({ response := "Error"
         tokens_used := 0
         context_length := stE.token_buffer.length
         stats := stE.stats
         memory_policy := stE.memory_policy }, stE)

/-- Fold a sequence of policy applications (the per-call oracle models the
collaborators at that turn).  A raise — impossible from a constructed engine,
as proved below — would abort the fold with the mutated state. -/
def runPolicies (st : EngineState) : List (Oracle × List Nat) → EngineState
  | [] => st
  | (orc, new_tokens) :: rest =>
    match applyPolicy orc st new_tokens with
    | .ok (st1, _) => runPolicies st1 rest
    | .error stE => stE

/-! ## Auxiliary predicates and specification-side selections -/

/-- The five policy names `_apply_policy_impl` dispatches on. -/
def knownPolicies : List String :=
  ["sliding", "importance", "semantic", "rolling_summary", "hybrid"]

/-- Well-formedness of the attention collaborator: a successfully extracted
attention vector has one score per context position (guaranteed by the
transformer shape `[seq]` in `_collect_last_token_importance`). -/
def WFOracle (orc : Oracle) : Prop :=
  ∀ ctx a, orc.attention ctx = some a → a.length = ctx.length

/-- The state invariant of the importance policy: the score deque tracks the
token buffer elementwise.  It holds at construction and is preserved by every
policy application. -/
def InvAtt (st : EngineState) : Prop :=
  st.memory_policy = "importance" →
    st.attention_scores.length = st.token_buffer.length

instance (st : EngineState) : Decidable (InvAtt st) := by
  unfold InvAtt
  infer_instance

/-- `q` comes strictly before `p` in the order realised by CPython's stable
`sorted(..., reverse=True)`: a strictly higher score, or a tied score and a
lower original index. -/
def strictPrec (scores : List ℚ) (q p : Nat) : Prop :=
  importanceKey scores p < importanceKey scores q ∨
    (importanceKey scores q = importanceKey scores p ∧ q < p)

instance (scores : List ℚ) (q p : Nat) : Decidable (strictPrec scores q p) := by
  unfold strictPrec
  infer_instance

/-- `rankRel` is total: any two positions are comparable in the stable
descending sort order. -/
instance (scores : List ℚ) : IsTotal Nat (rankRel scores) :=
  ⟨by
    intro i j
    unfold rankRel
    rcases lt_trichotomy (importanceKey scores i) (importanceKey scores j) with h | h | h
    · exact Or.inr (Or.inl h)
    · rcases Nat.le_total i j with hij | hij
      · exact Or.inl (Or.inr ⟨h, hij⟩)
      · exact Or.inr (Or.inr ⟨h.symm, hij⟩)
    · exact Or.inl (Or.inl h)⟩

/-- `rankRel` is transitive. -/
instance (scores : List ℚ) : IsTrans Nat (rankRel scores) :=
  ⟨by
    intro i j k h1 h2
    unfold rankRel at h1 h2 ⊢
    rcases h1 with h1 | ⟨h1, h1'⟩ <;> rcases h2 with h2 | ⟨h2, h2'⟩
    · exact Or.inl (h2.trans h1)
    · exact Or.inl (lt_of_le_of_lt (le_of_eq h2.symm) h1)
    · exact Or.inl (lt_of_lt_of_le h2 (le_of_eq h1.symm))
    · exact Or.inr ⟨h1.trans h2, h1'.trans h2'⟩⟩

/-- Number of positions strictly preferred to `p` in the ordering
(score descending, ties to the *lower* index) — the order realised by
CPython's stable `sorted(..., reverse=True)`. -/
def beatCountLow (scores : List ℚ) (n p : Nat) : Nat :=
  ((List.range n).filter (fun q => decide (strictPrec scores q p))).length

/-- Specification-side selection with ties to the lower (older) index: the
positions whose rank is inside the budget. -/
def specTopLow (scores : List ℚ) (n budget : Nat) : List Nat :=
  (List.range n).filter (fun p => beatCountLow scores n p < budget)

/-- Number of positions strictly preferred to `p` in the ordering of the
claim (score descending, ties to the *higher* index). -/
def beatCountHigh (scores : List ℚ) (n p : Nat) : Nat :=
  ((List.range n).filter (fun q =>
    importanceKey scores p < importanceKey scores q ∨
      (importanceKey scores q = importanceKey scores p ∧ p < q))).length

/-- Modelled from the spec: the claimed selection "ranked by importance score
descending, ties broken by higher original index (favors recency on ties)" —
the `budget` positions of best rank under that ordering. -/
def specTopHigh (scores : List ℚ) (n budget : Nat) : List Nat :=
  (List.range n).filter (fun p => beatCountHigh scores n p < budget)

/-- A concrete collaborator assignment used by witnesses and counterexamples:
decode yields `"hello"`, encode yields `[5]`, everything optional is absent
or failing. -/
def sampleOracle : Oracle where
  decode := fun _ => .ok "hello"
  encode := fun _ => .ok [5]
  attention := fun _ => none
  hasModel := false
  topLogit := fun _ => .error ()
  encodeSpans := fun _ _ => .error ()
  embedText := fun _ => .error ()
  selectReps := fun _ _ _ => .error ()
  kmeansReps := fun _ _ => .error ()
  kmeansLabels := fun _ _ => .error ()
  generate := fun _ _ => .ok []

/-- A collaborator family whose decode always yields the text `d` and whose
encode always yields the token list `S`; the optional capabilities are
absent.  Quantifying over `d` and `S` quantifies over the generator's
round-trip behaviour. -/
def constOracle (d : String) (S : List Nat) : Oracle where
  decode := fun _ => .ok d
  encode := fun _ => .ok S
  attention := fun _ => none
  hasModel := false
  topLogit := fun _ => .error ()
  encodeSpans := fun _ _ => .error ()
  embedText := fun _ => .error ()
  selectReps := fun _ _ _ => .error ()
  kmeansReps := fun _ _ => .error ()
  kmeansLabels := fun _ _ => .error ()
  generate := fun _ _ => .ok []

/-- A collaborator whose attention capability yields a flat score `1` for
every context position (a local model with uniform last-token attention); the
other optional capabilities are absent or failing. -/
def flatAttentionOracle : Oracle where
  decode := fun _ => .ok ""
  encode := fun _ => .ok []
  attention := fun ctx => some (List.replicate ctx.length 1)
  hasModel := false
  topLogit := fun _ => .error ()
  encodeSpans := fun _ _ => .error ()
  embedText := fun _ => .error ()
  selectReps := fun _ _ _ => .error ()
  kmeansReps := fun _ _ => .error ()
  kmeansLabels := fun _ _ => .error ()
  generate := fun _ _ => .ok []

/-- An importance engine of capacity `66` whose buffer is full with tokens
`0..65` and whose score deque is zeroed, as after filling a fresh importance
engine one token at a time. -/
def impCexState : EngineState :=
  { mkEngine 66 "importance" 256 8 50 none false false with
      token_buffer := List.range 66
      attention_scores := List.replicate 66 0 }

/-- A collaborator assignment where every backend call raises. -/
def failingOracle : Oracle where
  decode := fun _ => .error ()
  encode := fun _ => .error ()
  attention := fun _ => none
  hasModel := true
  topLogit := fun _ => .error ()
  encodeSpans := fun _ _ => .error ()
  embedText := fun _ => .error ()
  selectReps := fun _ _ _ => .error ()
  kmeansReps := fun _ _ => .error ()
  kmeansLabels := fun _ _ => .error ()
  generate := fun _ _ => .error ()

/-! # Theorems -/

/-! ## Deque basics -/

theorem pyTakeLast_length_le (cap : Nat) (l : List α) : (pyTakeLast cap l).length ≤ cap := by
  simp [pyTakeLast]
  omega

theorem pyTakeLast_eq_self (cap : Nat) (l : List α) (h : l.length ≤ cap) :
    pyTakeLast cap l = l := by
  simp [pyTakeLast, Nat.sub_eq_zero_of_le h]

theorem dequeExtend_length_le (cap : Nat) (buf new : List α) :
    (dequeExtend cap buf new).length ≤ cap :=
  pyTakeLast_length_le cap _

theorem dequeMk_length_le (cap : Nat) (l : List α) : (dequeMk cap l).length ≤ cap :=
  pyTakeLast_length_le cap l

theorem pyTakeLast_length (cap : Nat) (l : List α) :
    (pyTakeLast cap l).length = min cap l.length := by
  simp [pyTakeLast]
  omega

/-! ## C3: the latency guard, timeout disabled, on an over-budget run -/

/-- C3, code evaluated at the failing input (the docstring's own example:
a 3000 ms callable under a 100 ms budget with `timeout_enabled` left at its
default `False`): `guarded_call` returns the callable's result `"slow"`, not
the fallback's `"fast"` that the claim (and the source's docstring and
doctest) promise. -/
theorem guarded_call_over_budget_returns_func_result :
    guarded_call false true (Except.ok ("slow", (3000 : ℚ))) 100 (fun _ => "fast") = "slow" ∧
      guarded_call false true (Except.ok ("slow", (3000 : ℚ))) 100 (fun _ => "fast") ≠ "fast" := by
  exact ⟨rfl, by decide⟩

/-! ## C6: ContextBuilder idempotence -/

theorem clip_length_le (m : Nat) (l : List α) :
    (if m < l.length then pyTakeLast m l else l).length ≤ m := by
  split
  · exact pyTakeLast_length_le m l
  · omega

theorem contextBuild_length_le (dec : List Nat → Except Unit String) (m w : Nat)
    (x : List Nat) : (contextBuild dec m w x).1.length ≤ m := by
  by_cases h : x.length ≤ m
  · simp [contextBuild, h]
  · simp only [contextBuild, if_neg h]
    exact clip_length_le m _

/-- C6: `ContextBuilder.build` is idempotent — its output always fits the
cap, and any policy output that already fits (in particular the output of an
earlier `build`) is returned unchanged. -/
theorem context_build_idempotent (dec : List Nat → Except Unit String) (m w : Nat)
    (x : List Nat) :
    (contextBuild dec m w (contextBuild dec m w x).1).1 = (contextBuild dec m w x).1 ∧
      (x.length ≤ m → (contextBuild dec m w x).1 = x) := by
  constructor
  · have h := contextBuild_length_le dec m w x
    generalize (contextBuild dec m w x).1 = y at h ⊢
    simp [contextBuild, h]
  · intro h
    simp [contextBuild, h]

/-- Witness for C6 at concrete inputs: a 3-cap builder returns a fitting
output unchanged and is idempotent on an over-long one. -/
theorem context_build_idempotent_witness :
    (contextBuild (fun _ => Except.error ()) 3 2 [1, 2, 3]).1 = [1, 2, 3] ∧
      (contextBuild (fun _ => Except.error ()) 3 2
          (contextBuild (fun _ => Except.error ()) 3 2 [9, 8, 7, 6, 5]).1).1 =
        (contextBuild (fun _ => Except.error ()) 3 2 [9, 8, 7, 6, 5]).1 :=
  ⟨(context_build_idempotent (fun _ => Except.error ()) 3 2 [1, 2, 3]).2 (by decide),
    (context_build_idempotent (fun _ => Except.error ()) 3 2 [9, 8, 7, 6, 5]).1⟩

/-! ## C10: chat with an empty or whitespace-only message -/

theorem pyStrip_of_all_space (m : String) (h : m.toList.all pyIsSpace) : pyStrip m = "" := by
  have hd : List.dropWhile pyIsSpace m.data = [] := by
    rw [List.dropWhile_eq_nil_iff]
    intro x hx
    exact (List.all_eq_true.1 h) x hx
  simp only [pyStrip, String.toList, hd, List.reverse_nil, List.dropWhile_nil]
  rfl

/-- C10: a whitespace-only (or empty) message makes `chat` return an empty
response with `tokens_used = 0` and leaves the engine state — token buffer,
every `MemoryStats` counter, conversation history — unchanged. -/
theorem chat_empty_message_noop (orc : Oracle) (st : EngineState) (message : String)
    (max_new : Nat) (h : message.toList.all pyIsSpace) :
    chat orc st message max_new =
      ({ response := ""
         tokens_used := 0
         context_length := st.token_buffer.length
         stats := st.stats
         memory_policy := st.memory_policy }, st) := by
  have hs : pyStrip message = "" := pyStrip_of_all_space message h
  simp [chat, hs]

/-- Witness for C10: a tab-and-space message against a sliding engine. -/
theorem chat_empty_message_noop_witness :
    chat sampleOracle (mkEngine 10 "sliding" 4 4 256 none false false) " \t " 5 =
      ({ response := ""
         tokens_used := 0
         context_length := 0
         stats := MemoryStats.init
         memory_policy := "sliding" },
        mkEngine 10 "sliding" 4 4 256 none false false) := by
  have := chat_empty_message_noop sampleOracle
    (mkEngine 10 "sliding" 4 4 256 none false false) " \t " 5 (by decide)
  simpa [mkEngine] using this

theorem evictSliding_frame (st : EngineState) (new_tokens : List Nat) :
    (evictSliding st new_tokens).1.max_tokens = st.max_tokens ∧
      (evictSliding st new_tokens).1.memory_policy = st.memory_policy ∧
      (evictSliding st new_tokens).1.token_buffer.length ≤ st.max_tokens := by
  unfold evictSliding
  dsimp only
  split <;> simp [dequeExtend_length_le]

theorem evictSliding_frame_eq (s st : EngineState) (new_tokens : List Nat)
    (hm : s.max_tokens = st.max_tokens) (hp : s.memory_policy = st.memory_policy) :
    (evictSliding s new_tokens).1.max_tokens = st.max_tokens ∧
      (evictSliding s new_tokens).1.memory_policy = st.memory_policy ∧
      (evictSliding s new_tokens).1.token_buffer.length ≤ st.max_tokens := by
  obtain ⟨a, b, c⟩ := evictSliding_frame s new_tokens
  exact ⟨a.trans hm, b.trans hp, hm ▸ c⟩

theorem computeSpanEmbeddings_frame (orc : Oracle) (st : EngineState) (tokens : List Nat)
    (span_size stride : Nat) :
    (computeSpanEmbeddings orc st tokens span_size stride).max_tokens = st.max_tokens ∧
      (computeSpanEmbeddings orc st tokens span_size stride).memory_policy = st.memory_policy ∧
      (computeSpanEmbeddings orc st tokens span_size stride).token_buffer = st.token_buffer ∧
      (computeSpanEmbeddings orc st tokens span_size stride).stats = st.stats ∧
      (computeSpanEmbeddings orc st tokens span_size stride).attention_scores = st.attention_scores ∧
      (computeSpanEmbeddings orc st tokens span_size stride).semantic_clusters = st.semantic_clusters := by
  unfold computeSpanEmbeddings
  split
  · simp
  · split <;> simp

theorem evictSemantic_frame (orc : Oracle) (st : EngineState) (new_tokens : List Nat) :
    (evictSemantic orc st new_tokens).1.max_tokens = st.max_tokens ∧
      (evictSemantic orc st new_tokens).1.memory_policy = st.memory_policy ∧
      (evictSemantic orc st new_tokens).1.token_buffer.length ≤ st.max_tokens := by
  obtain ⟨hm, hp, _, _, _, _⟩ := computeSpanEmbeddings_frame orc st st.token_buffer 64 32
  unfold evictSemantic
  dsimp only
  split
  · simp [dequeExtend_length_le]
  · split
    · split
      · exact evictSliding_frame_eq _ st new_tokens hm hp
      · split
        · exact evictSliding_frame_eq _ st new_tokens hm hp
        · simp [hm, hp, dequeExtend_length_le]
    · split
      · exact evictSliding_frame _ new_tokens
      · split
        · exact evictSliding_frame_eq _ st new_tokens hm hp
        · split
          · exact evictSliding_frame_eq _ st new_tokens hm hp
          · simp [hm, hp, dequeExtend_length_le]

theorem evictImportance_frame (orc : Oracle) (st : EngineState) (new_tokens : List Nat) :
    (∀ st1 out, evictImportance orc st new_tokens = .ok (st1, out) →
      st1.max_tokens = st.max_tokens ∧ st1.memory_policy = st.memory_policy ∧
        st1.token_buffer.length ≤ st.max_tokens) ∧
    (∀ stE, evictImportance orc st new_tokens = .error stE →
      stE.max_tokens = st.max_tokens ∧ stE.memory_policy = st.memory_policy ∧
        stE.token_buffer.length ≤ st.max_tokens) := by
  unfold evictImportance
  dsimp only
  split
  · constructor
    · intro st1 out h
      simp only [Except.ok.injEq, Prod.mk.injEq] at h
      obtain ⟨h1, _⟩ := h
      subst h1
      simp [dequeExtend_length_le]
    · intro stE h
      simp at h
  · split
    · constructor
      · intro st1 out h
        simp at h
      · intro stE h
        simp only [Except.error.injEq] at h
        subst h
        simp [dequeMk_length_le]
    · constructor
      · intro st1 out h
        simp only [Except.ok.injEq, Prod.mk.injEq] at h
        obtain ⟨h1, _⟩ := h
        subst h1
        simp [dequeExtend_length_le]
      · intro stE h
        simp at h

theorem evictHybrid_frame (orc : Oracle) (st : EngineState) (new_tokens : List Nat) :
    (∀ st1 out, evictHybrid orc st new_tokens = .ok (st1, out) →
      st1.max_tokens = st.max_tokens ∧ st1.memory_policy = st.memory_policy ∧
        st1.token_buffer.length ≤ st.max_tokens) ∧
    (∀ stE, evictHybrid orc st new_tokens = .error stE →
      stE.max_tokens = st.max_tokens ∧ stE.memory_policy = st.memory_policy ∧
        (stE.token_buffer.length ≤ st.max_tokens ∨ stE.token_buffer = st.token_buffer)) := by
  obtain ⟨hm, hp, hb, _, _, _⟩ := computeSpanEmbeddings_frame orc st st.token_buffer 64 32
  unfold evictHybrid
  dsimp only
  split
  · constructor
    · intro st1 out h
      simp only [Except.ok.injEq, Prod.mk.injEq] at h
      obtain ⟨h1, _⟩ := h
      subst h1
      simp [dequeExtend_length_le]
    · intro stE h
      simp at h
  · split
    · constructor
      · intro st1 out h
        simp at h
      · intro stE h
        simp only [Except.error.injEq] at h
        subst h
        exact ⟨hm, hp, Or.inr hb⟩
    · constructor
      · intro st1 out h
        simp only [Except.ok.injEq, Prod.mk.injEq] at h
        obtain ⟨h1, _⟩ := h
        subst h1
        simp [hm, hp, dequeExtend_length_le]
      · intro stE h
        simp at h

@[simp] theorem createSummary_max_tokens (orc : Oracle) (st : EngineState) (t : List Nat)
    (m : Nat) : (createSummary orc st t m).1.max_tokens = st.max_tokens := by
  unfold createSummary
  split
  · rfl
  · split <;> rfl

@[simp] theorem createSummary_memory_policy (orc : Oracle) (st : EngineState) (t : List Nat)
    (m : Nat) : (createSummary orc st t m).1.memory_policy = st.memory_policy := by
  unfold createSummary
  split
  · rfl
  · split <;> rfl

theorem rollingSummaryPhase_frame (orc : Oracle) (st : EngineState) (new_tokens : List Nat) :
    (rollingSummaryPhase orc st new_tokens).max_tokens = st.max_tokens ∧
      (rollingSummaryPhase orc st new_tokens).memory_policy = st.memory_policy := by
  unfold rollingSummaryPhase
  dsimp only
  split
  · split <;> simp
  · simp

theorem evictRollingSummary_frame (orc : Oracle) (st : EngineState) (new_tokens : List Nat) :
    (evictRollingSummary orc st new_tokens).1.max_tokens = st.max_tokens ∧
      (evictRollingSummary orc st new_tokens).1.memory_policy = st.memory_policy ∧
      (evictRollingSummary orc st new_tokens).1.token_buffer.length ≤ st.max_tokens := by
  obtain ⟨hm, hp⟩ := rollingSummaryPhase_frame orc st new_tokens
  exact evictSliding_frame_eq _ st new_tokens hm hp

theorem applyPolicyImpl_frame (orc : Oracle) (st : EngineState) (new_tokens : List Nat) :
    (∀ st1 out, applyPolicyImpl orc st new_tokens = .ok (st1, out) →
      st1.max_tokens = st.max_tokens ∧ st1.memory_policy = st.memory_policy ∧
        st1.token_buffer.length ≤ st.max_tokens) ∧
    (∀ stE, applyPolicyImpl orc st new_tokens = .error stE →
      stE.max_tokens = st.max_tokens ∧ stE.memory_policy = st.memory_policy ∧
        (stE.token_buffer.length ≤ st.max_tokens ∨ stE.token_buffer = st.token_buffer)) := by
  unfold applyPolicyImpl
  split
  · refine ⟨fun st1 out h => ?_, fun stE h => by simp at h⟩
    have h2 := Except.ok.inj h
    have h3 : st1 = (evictSliding st new_tokens).1 := by rw [h2]
    subst h3
    exact evictSliding_frame st new_tokens
  · split
    · obtain ⟨hok, herr⟩ := evictImportance_frame orc st new_tokens
      refine ⟨hok, fun stE h => ?_⟩
      obtain ⟨a, b, c⟩ := herr stE h
      exact ⟨a, b, Or.inl c⟩
    · split
      · refine ⟨fun st1 out h => ?_, fun stE h => by simp at h⟩
        have h2 := Except.ok.inj h
        have h3 : st1 = (evictSemantic orc st new_tokens).1 := by rw [h2]
        subst h3
        exact evictSemantic_frame orc st new_tokens
      · split
        · refine ⟨fun st1 out h => ?_, fun stE h => by simp at h⟩
          have h2 := Except.ok.inj h
          have h3 : st1 = (evictRollingSummary orc st new_tokens).1 := by rw [h2]
          subst h3
          exact evictRollingSummary_frame orc st new_tokens
        · split
          · obtain ⟨hok, herr⟩ := evictHybrid_frame orc st new_tokens
            refine ⟨hok, fun stE h => ?_⟩
            obtain ⟨a, b, c⟩ := herr stE h
            exact ⟨a, b, c⟩
          · refine ⟨fun st1 out h => ?_, fun stE h => by simp at h⟩
            have h2 := Except.ok.inj h
            have h3 : st1 = (evictSliding st new_tokens).1 := by rw [h2]
            subst h3
            exact evictSliding_frame st new_tokens

theorem applyPolicy_frame (orc : Oracle) (st : EngineState) (new_tokens : List Nat) :
    (∀ st1 out, applyPolicy orc st new_tokens = .ok (st1, out) →
      st1.max_tokens = st.max_tokens ∧ st1.memory_policy = st.memory_policy ∧
        st1.token_buffer.length ≤ st.max_tokens) ∧
    (∀ stE, applyPolicy orc st new_tokens = .error stE →
      stE.max_tokens = st.max_tokens ∧ stE.memory_policy = st.memory_policy ∧
        (stE.token_buffer.length ≤ st.max_tokens ∨ stE.token_buffer = st.token_buffer)) := by
  unfold applyPolicy
  dsimp only
  obtain ⟨hok, herr⟩ := applyPolicyImpl_frame orc (bumpPolicyCalls st) new_tokens
  split
  · exact ⟨hok, herr⟩
  · split
    · next r heq =>
      refine ⟨fun st1 out h => ?_, fun stE h => by simp at h⟩
      obtain ⟨a, b, c⟩ := hok st1 out (by rw [heq]; exact h ▸ rfl)
      exact ⟨a, b, c⟩
    · next stE0 heq =>
      refine ⟨fun st1 out h => ?_, fun stE h => by simp at h⟩
      obtain ⟨a, b, _⟩ := herr stE0 heq
      have h2 := Except.ok.inj h
      have h3 : st1 = (evictSliding (bumpFallbacks stE0) new_tokens).1 := by
        rw [h2]
      subst h3
      exact evictSliding_frame_eq _ st new_tokens a b

theorem capacity_invariant_aux (steps : List (Oracle × List Nat)) :
    ∀ (cap : Nat) (st : EngineState), st.max_tokens = cap → st.token_buffer.length ≤ cap →
      (runPolicies st steps).token_buffer.length ≤ cap := by
  induction steps with
  | nil =>
    intro cap st _ h2
    simpa [runPolicies] using h2
  | cons p rest ih =>
    intro cap st h1 h2
    obtain ⟨orc, new⟩ := p
    cases happ : applyPolicy orc st new with
    | ok r =>
      obtain ⟨st1, out⟩ := r
      obtain ⟨a, _, c⟩ := (applyPolicy_frame orc st new).1 st1 out happ
      have hred : runPolicies st ((orc, new) :: rest) = runPolicies st1 rest := by
        simp [runPolicies, happ]
      rw [hred]
      exact ih cap st1 (a.trans h1) (h1 ▸ c)
    | error stE =>
      obtain ⟨a, _, c⟩ := (applyPolicy_frame orc st new).2 stE happ
      have hred : runPolicies st ((orc, new) :: rest) = stE := by
        simp [runPolicies, happ]
      rw [hred]
      cases c with
      | inl hc => exact h1 ▸ hc
      | inr hc => rw [hc]; exact h2

/-- C1: for every engine constructed with a positive `max_tokens` — any
policy string, window, cluster and interval settings, optional latency
budget — and every sequence of policy applications with arbitrary
collaborator behaviour and arbitrary new-token lists, the token buffer's
length never exceeds `max_tokens`. -/
theorem capacity_invariant (cap window clusters interval : Nat) (policy : String)
    (mp : Option ℚ) (e1 e2 : Bool) (_hpos : 0 < cap) (steps : List (Oracle × List Nat)) :
    (runPolicies (mkEngine cap policy window clusters interval mp e1 e2)
        steps).token_buffer.length ≤ cap := by
  refine capacity_invariant_aux steps cap _ ?_ ?_ <;> simp [mkEngine]

theorem capacity_invariant_witness :
    0 < 3 ∧
      (runPolicies (mkEngine 3 "importance" 2 4 256 none false false)
          [(sampleOracle, [1, 2]), (sampleOracle, [3, 4, 5, 6]),
            (sampleOracle, [7])]).token_buffer.length ≤ 3 :=
  ⟨by decide,
    capacity_invariant 3 2 4 256 "importance" none false false (by decide) _⟩

theorem recencyRamp_length (n : Nat) : (recencyRamp n).length = n := by
  unfold recencyRamp
  rw [List.length_map, List.length_range]

theorem probeLoop_length (orc : Oracle) (ctx : List Nat) (ss : Nat) (b : ℚ) :
    ∀ idxs scores s, probeLoop orc ctx ss b idxs scores = .ok s → s.length = scores.length := by
  intro idxs
  induction idxs with
  | nil =>
    intro scores s h
    simp [probeLoop] at h
    rw [← h]
  | cons i rest ih =>
    intro scores s h
    unfold probeLoop at h
    dsimp only at h
    split at h
    · exact ih scores s h
    · split at h
      · simp at h
      · have := ih _ s h
        simpa using this

theorem importanceViaLogitProbes_length (orc : Oracle) (ctx : List Nat) (np ss : Nat) :
    (importanceViaLogitProbes orc ctx np ss).length = ctx.length := by
  unfold importanceViaLogitProbes
  dsimp only
  split
  · simp
  · split
    · exact recencyRamp_length _
    · cases hsc : (orc.topLogit ctx).bind (fun baseline =>
          probeLoop orc ctx ss baseline
            (linspaceNatFloor (max 1 (ctx.length / ss) - 1) (min np (max 1 (ctx.length / ss))))
            (List.replicate ctx.length 0)) with
      | error e => exact recencyRamp_length _
      | ok scores =>
        have hlen : scores.length = ctx.length := by
          cases hb : orc.topLogit ctx with
          | error e => rw [hb] at hsc; simp [Except.bind] at hsc
          | ok m =>
            rw [hb] at hsc
            simp only [Except.bind] at hsc
            have := probeLoop_length orc ctx ss m _ _ _ hsc
            simpa using this
        dsimp only
        split <;> simp [hlen]

theorem mergeMax_length (att imp : List ℚ) : (mergeMax att imp).length = att.length := by
  simp [mergeMax]

theorem importanceMergedScores_length (orc : Oracle) (A : List ℚ) (cur : List Nat)
    (h : A.length = cur.length) :
    (importanceMergedScores orc A cur).length = cur.length := by
  unfold importanceMergedScores
  dsimp only
  split
  · exact h
  · rw [mergeMax_length]
    split <;> simp [h]

theorem importanceKeepList_lt (att : List ℚ) (n : Nat) (ib rb : ℤ) :
    ∀ i ∈ importanceKeepList att n ib rb, i < n := by
  intro i hi
  unfold importanceKeepList at hi
  dsimp only at hi
  rw [List.mem_filter] at hi
  exact List.mem_range.1 hi.1

theorem mapM_pyIndex_ok (att : List ℚ) :
    ∀ (l : List Nat), (∀ i ∈ l, i < att.length) →
      ∃ v, l.mapM (pyIndex att) = .ok v ∧ v.length = l.length := by
  intro l
  induction l with
  | nil => intro _; exact ⟨[], rfl, rfl⟩
  | cons a rest ih =>
    intro h
    obtain ⟨v, hv, hlen⟩ := ih (fun i hi => h i (List.mem_cons_of_mem a hi))
    have ha : a < att.length := h a (List.mem_cons_self a rest)
    have hpy : ∃ x, pyIndex att a = .ok x := by
      unfold pyIndex
      cases hg : att.get? a with
      | none =>
        have := List.get?_eq_none.1 hg
        omega
      | some x => exact ⟨x, by simp⟩
    obtain ⟨x, hx⟩ := hpy
    have hcons : (a :: rest).mapM (pyIndex att) = Except.ok (x :: v) := by
      rw [List.mapM_cons, hx, hv]
      rfl
    exact ⟨x :: v, hcons, by simp [hlen]⟩

theorem evictImportance_total (orc : Oracle) (st : EngineState) (new_tokens : List Nat)
    (hlen : st.attention_scores.length = st.token_buffer.length) :
    ∃ st1 out, evictImportance orc st new_tokens = .ok (st1, out) ∧
      st1.attention_scores.length = st1.token_buffer.length := by
  unfold evictImportance
  dsimp only
  split
  · refine ⟨_, _, rfl, ?_⟩
    simp [dequeExtend, pyTakeLast_length, hlen]
  · have hANlen : (importanceMergedScores orc st.attention_scores st.token_buffer).length =
        st.token_buffer.length := importanceMergedScores_length orc _ _ hlen
    obtain ⟨v, hv, hvlen⟩ := mapM_pyIndex_ok
      (importanceMergedScores orc st.attention_scores st.token_buffer)
      (importanceKeepList (importanceMergedScores orc st.attention_scores st.token_buffer)
        st.token_buffer.length
        (max 0 ((st.max_tokens : ℤ) - new_tokens.length -
          max 64 (Int.fdiv ((st.max_tokens : ℤ) - new_tokens.length) 4)))
        (max 64 (Int.fdiv ((st.max_tokens : ℤ) - new_tokens.length) 4)))
      (fun i hi => by
        rw [hANlen]
        exact importanceKeepList_lt _ _ _ _ i hi)
    split
    · next e heq =>
      rw [hv] at heq
      simp at heq
    · next gathered heq =>
      rw [hv] at heq
      have hg : v = gathered := Except.ok.inj heq
      subst hg
      refine ⟨_, _, rfl, ?_⟩
      simp [dequeExtend, dequeMk, pyTakeLast_length, hvlen]

theorem hybridSemLoop_length (labels : List Nat) (n : Nat) :
    ∀ (te : List (Nat × Nat × Nat × Option (List ℚ))) (scores : List ℚ),
      (∀ s, hybridSemLoop labels n te scores = .ok s → s.length = scores.length) ∧
      (∀ s, hybridSemLoop labels n te scores = .error s → s.length = scores.length) := by
  intro te
  induction te with
  | nil =>
    intro scores
    constructor
    · intro s h
      rw [(Except.ok.inj h : scores = s)]
    · intro s h
      exact Except.noConfusion h
  | cons p rest ih =>
    intro scores
    obtain ⟨i, s0, ep, e⟩ := p
    constructor
    · intro s h
      unfold hybridSemLoop at h
      dsimp only at h
      split at h
      · exact Except.noConfusion h
      · have := (ih _).1 s h
        simpa using this
    · intro s h
      unfold hybridSemLoop at h
      dsimp only at h
      split at h
      · simp only [Except.error.injEq] at h
        rw [← h]
      · have := (ih _).2 s h
        simpa using this

theorem hybridSemScores_length (orc : Oracle) (te : List (Nat × Nat × Option (List ℚ)))
    (clusters n : Nat) : (hybridSemScores orc te clusters n).length = n := by
  unfold hybridSemScores
  dsimp only
  cases vstackEmbeds te with
  | error e => simp
  | ok embs =>
    dsimp only
    cases orc.kmeansLabels embs (min clusters te.length) with
    | error e => simp
    | ok labels =>
      dsimp only
      cases hl : hybridSemLoop labels n (te.enum.map (fun p => (p.1, p.2))) (List.replicate n 0) with
      | error s =>
        have := (hybridSemLoop_length labels n _ _).2 s hl
        simpa using this
      | ok s =>
        have hs := (hybridSemLoop_length labels n _ _).1 s hl
        dsimp only
        split <;> simp [hs]

theorem hybridImp_take_length (orc : Oracle) (hwf : WFOracle orc) (cur : List Nat) :
    ((match orc.attention cur with
      | some a => a
      | none => importanceViaLogitProbes orc cur 6 32).take cur.length).length = cur.length := by
  cases h : orc.attention cur with
  | some a =>
    have := hwf cur a h
    simp [List.length_take, this]
  | none =>
    simp [List.length_take, importanceViaLogitProbes_length]

theorem npAdd_ok_of_length_eq (a b : List ℚ) (h : a.length = b.length) :
    npAdd a b = .ok (List.zipWith (· + ·) a b) := by
  simp [npAdd, h]

theorem evictHybrid_total (orc : Oracle) (st : EngineState) (new_tokens : List Nat)
    (hwf : WFOracle orc) :
    ∃ st1 out, evictHybrid orc st new_tokens = .ok (st1, out) := by
  unfold evictHybrid
  dsimp only
  split
  · exact ⟨_, _, rfl⟩
  · have hlenA : ((match orc.attention st.token_buffer with
        | some a => a
        | none => importanceViaLogitProbes orc st.token_buffer 6 32).take
          st.token_buffer.length).length = st.token_buffer.length :=
      hybridImp_take_length orc hwf st.token_buffer
    split
    · next e heq =>
      rw [npAdd_ok_of_length_eq] at heq
      · simp at heq
      · rw [npScale, npScale, List.length_map, List.length_map, hlenA]
        split <;> simp [hybridSemScores_length]
    · exact ⟨_, _, rfl⟩

theorem applyPolicyImpl_total (orc : Oracle) (st : EngineState) (new_tokens : List Nat)
    (hwf : WFOracle orc) (hinv : InvAtt st) :
    ∃ st1 out, applyPolicyImpl orc st new_tokens = .ok (st1, out) ∧ InvAtt st1 := by
  unfold applyPolicyImpl
  split
  · next hp =>
    refine ⟨(evictSliding st new_tokens).1, (evictSliding st new_tokens).2, rfl, ?_⟩
    intro hImp
    rw [(evictSliding_frame st new_tokens).2.1, hp] at hImp
    exact absurd hImp (by decide)
  · split
    · next hp =>
      obtain ⟨st1, out, hok, hl⟩ := evictImportance_total orc st new_tokens (hinv hp)
      exact ⟨st1, out, hok, fun _ => hl⟩
    · split
      · next hp =>
        refine ⟨(evictSemantic orc st new_tokens).1, (evictSemantic orc st new_tokens).2,
          rfl, ?_⟩
        intro hImp
        rw [(evictSemantic_frame orc st new_tokens).2.1, hp] at hImp
        exact absurd hImp (by decide)
      · split
        · next hp =>
          refine ⟨(evictRollingSummary orc st new_tokens).1,
            (evictRollingSummary orc st new_tokens).2, rfl, ?_⟩
          intro hImp
          rw [(evictRollingSummary_frame orc st new_tokens).2.1, hp] at hImp
          exact absurd hImp (by decide)
        · split
          · next hp =>
            obtain ⟨st1, out, hok⟩ := evictHybrid_total orc st new_tokens hwf
            refine ⟨st1, out, hok, ?_⟩
            intro hImp
            obtain ⟨_, hpol, _⟩ := (evictHybrid_frame orc st new_tokens).1 st1 out hok
            rw [hpol, hp] at hImp
            exact absurd hImp (by decide)
          · refine ⟨(evictSliding st new_tokens).1, (evictSliding st new_tokens).2, rfl, ?_⟩
            intro hImp
            rw [(evictSliding_frame st new_tokens).2.1] at hImp
            simp_all
  
theorem applyPolicy_total (orc : Oracle) (st : EngineState) (new_tokens : List Nat)
    (hwf : WFOracle orc) (hinv : InvAtt st) :
    ∃ st1 out, applyPolicy orc st new_tokens = .ok (st1, out) ∧ InvAtt st1 := by
  unfold applyPolicy
  dsimp only
  have hinvB : InvAtt (bumpPolicyCalls st) := by
    intro h
    exact hinv h
  obtain ⟨st1, out, hok, hi⟩ := applyPolicyImpl_total orc _ new_tokens hwf hinvB
  split
  · exact ⟨st1, out, hok, hi⟩
  · split
    · next r heq =>
      have hr : r = (st1, out) := Except.ok.inj (heq.symm.trans hok)
      subst hr
      exact ⟨st1, out, rfl, hi⟩
    · next stE heq =>
      rw [hok] at heq
      exact Except.noConfusion heq

/-- C2 (amended): a policy application never lets an exception escape to the
caller — for every policy variant (the dispatcher covers all five and the
default), every engine state satisfying the score-tracking invariant, every
well-formed collaborator behaviour (including arbitrary raises from the
generator, embedder and clustering) and every new-token list, `_apply_policy`
returns normally, also when `max_policy_ms` is `None`; and an internal
failure inside the Semantic policy's clustering path degrades that
application to exactly the Sliding eviction.  (As the counterexample shows,
the other variants degrade to their own documented fallbacks — recency
heuristic, truncation — not to Sliding.) -/
theorem policy_apply_total_and_semantic_fallback :
    (∀ (orc : Oracle) (st : EngineState) (new_tokens : List Nat), WFOracle orc → InvAtt st →
        ∃ st1 out, applyPolicy orc st new_tokens = .ok (st1, out) ∧ InvAtt st1) ∧
    (∀ (orc : Oracle) (st : EngineState) (new_tokens : List Nat),
        st.has_span_embedder = true →
        st.max_tokens < st.token_buffer.length + new_tokens.length →
        ¬ (computeSpanEmbeddings orc st st.token_buffer 64 32).token_embeddings.length <
            max 2 (st.semantic_clusters * 2) →
        semanticTier1Core orc (computeSpanEmbeddings orc st st.token_buffer 64 32)
            st.token_buffer new_tokens.length = .error () →
        evictSemantic orc st new_tokens =
          evictSliding (computeSpanEmbeddings orc st st.token_buffer 64 32) new_tokens) := by
  constructor
  · intro orc st new_tokens hwf hinv
    exact applyPolicy_total orc st new_tokens hwf hinv
  · intro orc st new_tokens hemb hover hcount hcore
    unfold evictSemantic
    dsimp only
    rw [if_neg (by omega)]
    rw [if_pos hemb]
    rw [if_neg hcount]
    rw [hcore]

set_option maxRecDepth 8192 in
/-- C2 counterexample for the claim as frozen: from a reachable
rolling-summary engine (fresh engine fed 200 tokens), an application whose
backend decode raises does *not* degrade to the Sliding eviction behaviour —
the internal truncation fallback of `_create_summary` produces a different
buffer than `_evict_sliding` would. -/
theorem policy_failure_not_sliding_cex :
    (runPolicies
        (runPolicies (mkEngine 512 "rolling_summary" 128 4 50 none false false)
          [(sampleOracle, List.range 200)])
        [(failingOracle, [999])]).token_buffer ≠
      (evictSliding
        (runPolicies (mkEngine 512 "rolling_summary" 128 4 50 none false false)
          [(sampleOracle, List.range 200)])
        [999]).1.token_buffer := by
  decide

set_option maxRecDepth 8192 in
/-- Witness for C2: both conjuncts applied at concrete engines — an
importance engine under the absent-attention collaborator, and a semantic
engine whose batch embedder raises. -/
theorem policy_apply_total_and_semantic_fallback_witness :
    (WFOracle sampleOracle ∧ InvAtt (mkEngine 5 "importance" 2 4 256 none false false) ∧
      ∃ st1 out,
        applyPolicy sampleOracle (mkEngine 5 "importance" 2 4 256 none false false)
          [1, 2, 3] = .ok (st1, out) ∧ InvAtt st1) ∧
    evictSemantic sampleOracle
        { mkEngine 40 "semantic" 8 1 256 none true false with token_buffer := List.range 40 }
        [7] =
      evictSliding
        (computeSpanEmbeddings sampleOracle
          { mkEngine 40 "semantic" 8 1 256 none true false with token_buffer := List.range 40 }
          (List.range 40) 64 32)
        [7] := by
  have hwf : WFOracle sampleOracle := fun ctx a h => by
    simp [sampleOracle] at h
  refine ⟨⟨hwf, by decide, ?_⟩, ?_⟩
  · exact policy_apply_total_and_semantic_fallback.1 sampleOracle
      (mkEngine 5 "importance" 2 4 256 none false false) [1, 2, 3] hwf (by decide)
  · exact policy_apply_total_and_semantic_fallback.2 sampleOracle
      { mkEngine 40 "semantic" 8 1 256 none true false with token_buffer := List.range 40 }
      [7] (by decide) (by decide) (by decide) (by rfl)

/-! ## C9: an unrecognized policy name -/

theorem evictSliding_policy_congr (s t : EngineState) (new_tokens : List Nat)
    (hmax : s.max_tokens = t.max_tokens) (hbuf : s.token_buffer = t.token_buffer)
    (hstats : s.stats = t.stats) :
    (evictSliding s new_tokens).1.token_buffer = (evictSliding t new_tokens).1.token_buffer ∧
      (evictSliding s new_tokens).1.stats = (evictSliding t new_tokens).1.stats ∧
      (evictSliding s new_tokens).2 = (evictSliding t new_tokens).2 := by
  unfold evictSliding
  dsimp only
  rw [hmax, hbuf, hstats]
  split <;> simp [hmax, hbuf, hstats]

theorem applyPolicy_unknown_eq (orc : Oracle) (st : EngineState) (new_tokens : List Nat)
    (h1 : st.memory_policy ≠ "sliding") (h2 : st.memory_policy ≠ "importance")
    (h3 : st.memory_policy ≠ "semantic") (h4 : st.memory_policy ≠ "rolling_summary")
    (h5 : st.memory_policy ≠ "hybrid") :
    applyPolicy orc st new_tokens =
      .ok (evictSliding (bumpPolicyCalls st) new_tokens) := by
  have h1b : ¬ (bumpPolicyCalls st).memory_policy = "sliding" := h1
  have h2b : ¬ (bumpPolicyCalls st).memory_policy = "importance" := h2
  have h3b : ¬ (bumpPolicyCalls st).memory_policy = "semantic" := h3
  have h4b : ¬ (bumpPolicyCalls st).memory_policy = "rolling_summary" := h4
  have h5b : ¬ (bumpPolicyCalls st).memory_policy = "hybrid" := h5
  have himpl : applyPolicyImpl orc (bumpPolicyCalls st) new_tokens =
      .ok (evictSliding (bumpPolicyCalls st) new_tokens) := by
    unfold applyPolicyImpl
    rw [if_neg h1b, if_neg h2b, if_neg h3b, if_neg h4b, if_neg h5b]
  unfold applyPolicy
  dsimp only
  split
  · exact himpl
  · rw [himpl]

theorem applyPolicy_sliding_eq (orc : Oracle) (st : EngineState) (new_tokens : List Nat)
    (h : st.memory_policy = "sliding") :
    applyPolicy orc st new_tokens =
      .ok (evictSliding (bumpPolicyCalls st) new_tokens) := by
  have hb : (bumpPolicyCalls st).memory_policy = "sliding" := h
  unfold applyPolicy
  dsimp only
  rw [if_pos (Or.inr hb)]
  unfold applyPolicyImpl
  rw [if_pos hb]

/-- C9: constructing the engine with a `memory_policy` string outside the
five dispatched names raises no error (the constructor returns a state
carrying that very string), and every subsequent policy application produces
exactly the buffer, returned token list and stats updates that the Sliding
policy would produce on the same state. -/
theorem unknown_policy_behaves_as_sliding (p : String) (hp : p ∉ knownPolicies) :
    (∀ (cap w c si : Nat) (mp : Option ℚ) (e1 e2 : Bool),
        (mkEngine cap p w c si mp e1 e2).memory_policy = p) ∧
    (∀ (orc : Oracle) (st : EngineState) (new_tokens : List Nat), st.memory_policy = p →
        ∃ st1 st2 out,
          applyPolicy orc st new_tokens = .ok (st1, out) ∧
            applyPolicy orc { st with memory_policy := "sliding" } new_tokens =
              .ok (st2, out) ∧
            st1.token_buffer = st2.token_buffer ∧ st1.stats = st2.stats) := by
  have hps : p ≠ "sliding" := fun h => hp (h ▸ by decide)
  have hpi : p ≠ "importance" := fun h => hp (h ▸ by decide)
  have hpse : p ≠ "semantic" := fun h => hp (h ▸ by decide)
  have hpr : p ≠ "rolling_summary" := fun h => hp (h ▸ by decide)
  have hph : p ≠ "hybrid" := fun h => hp (h ▸ by decide)
  constructor
  · intro cap w c si mp e1 e2
    unfold mkEngine
    dsimp only
    simp [hpse]
  · intro orc st new_tokens hmem
    have hunk := applyPolicy_unknown_eq orc st new_tokens
      (by rw [hmem]; exact hps) (by rw [hmem]; exact hpi) (by rw [hmem]; exact hpse)
      (by rw [hmem]; exact hpr) (by rw [hmem]; exact hph)
    have hsld := applyPolicy_sliding_eq orc { st with memory_policy := "sliding" }
      new_tokens rfl
    obtain ⟨hbuf, hstats, hout⟩ := evictSliding_policy_congr
      (bumpPolicyCalls st)
      (bumpPolicyCalls { st with memory_policy := "sliding" })
      new_tokens rfl rfl rfl
    refine ⟨(evictSliding (bumpPolicyCalls st) new_tokens).1,
      (evictSliding (bumpPolicyCalls { st with memory_policy := "sliding" }) new_tokens).1,
      (evictSliding (bumpPolicyCalls st) new_tokens).2, hunk, ?_, hbuf, hstats⟩
    rw [hout]
    exact hsld

/-- Witness for C9: the `"lru"` policy string on a capacity-4 engine. -/
theorem unknown_policy_behaves_as_sliding_witness :
    (mkEngine 4 "lru" 2 4 256 none false false).memory_policy = "lru" ∧
      ∃ st1 st2 out,
        applyPolicy sampleOracle (mkEngine 4 "lru" 2 4 256 none false false) [1, 2, 3, 4, 5] =
            .ok (st1, out) ∧
          applyPolicy sampleOracle
              { mkEngine 4 "lru" 2 4 256 none false false with memory_policy := "sliding" }
              [1, 2, 3, 4, 5] = .ok (st2, out) ∧
          st1.token_buffer = st2.token_buffer ∧ st1.stats = st2.stats := by
  have h := unknown_policy_behaves_as_sliding "lru" (by decide)
  exact ⟨h.1 4 2 4 256 none false false,
    h.2 sampleOracle (mkEngine 4 "lru" 2 4 256 none false false) [1, 2, 3, 4, 5] rfl⟩

set_option maxRecDepth 20000 in
theorem roll_first (d : String) (S : List Nat) :
    runPolicies (mkEngine 512 "rolling_summary" 128 4 50 none false false)
        [(constOracle d S, List.range 120)] =
      { mkEngine 512 "rolling_summary" 128 4 50 none false false with
        token_buffer := List.range 120
        tokens_since_summary := 120
        stats := { MemoryStats.init with total_policy_calls := 1 } } := by
  rfl

set_option maxRecDepth 20000 in
theorem roll_second_raw (d : String) (S : List Nat) (x : Nat) :
    runPolicies
      { mkEngine 512 "rolling_summary" 128 4 50 none false false with
        token_buffer := List.range 120
        tokens_since_summary := 120
        stats := { MemoryStats.init with total_policy_calls := 1 } }
      [(constOracle d S, [x])] =
    { mkEngine 512 "rolling_summary" 128 4 50 none false false with
      token_buffer := S.take 64 ++ List.range' 60 60 ++ [x]
      summary_tokens := S.take 64
      tokens_since_summary := 0
      stats := { MemoryStats.init with total_policy_calls := 2, summaries_created := 1 } } := by
  have e1 : min 64 S.length - 512 = 0 := by omega
  have e2 : min 64 S.length + 60 - 512 = 0 := by omega
  have e3 : ¬ (128 < min 64 S.length) := by omega
  have e4 : ¬ (512 < min 64 S.length + 60 + 1) := by omega
  have e5 : min 64 S.length + 60 + 1 - 512 = 0 := by omega
  simp [runPolicies, applyPolicy, applyPolicyImpl, bumpPolicyCalls, evictRollingSummary,
    rollingSummaryPhase, createSummary, evictSliding, constOracle, mkEngine, dequeExtend,
    dequeMk, pyTakeLast, MemoryStats.init, Except.bind, e1, e2, e3, e4, e5]
  decide

set_option maxRecDepth 20000 in
/-- C5 counterexample: feeding 120 tokens in one apply call to a fresh
RollingSummary engine with `summary_interval = 50` leaves
`summaries_created = 0` — the summarization branch tests the buffer *before*
insertion, and a fresh engine's buffer is empty — contradicting the claimed
`summaries_created ≥ 1`. -/
theorem rolling_summary_first_call_no_summary_cex :
    (runPolicies (mkEngine 512 "rolling_summary" 128 4 50 none false false)
        [(sampleOracle, List.range 120)]).stats.summaries_created = 0 := by
  rfl

set_option maxRecDepth 20000 in
/-- C5 (amended): on a fresh RollingSummary engine with
`summary_interval = 50`, the single 120-token call creates no summary; the
summary arrives one call later: for every generator round-trip behaviour
(decode text `d`, encode result `S`) and any next token `x`, after a second
apply call `summaries_created = 1` and the buffer is exactly the carried
summary tokens followed by the retained recent half and the new token. -/
theorem rolling_summary_second_call_summarizes (d : String) (S : List Nat) (x : Nat) :
    (runPolicies (mkEngine 512 "rolling_summary" 128 4 50 none false false)
        [(constOracle d S, List.range 120)]).stats.summaries_created = 0 ∧
    (runPolicies (mkEngine 512 "rolling_summary" 128 4 50 none false false)
        [(constOracle d S, List.range 120),
          (constOracle d S, [x])]).stats.summaries_created = 1 ∧
    (runPolicies (mkEngine 512 "rolling_summary" 128 4 50 none false false)
        [(constOracle d S, List.range 120), (constOracle d S, [x])]).summary_tokens =
      S.take 64 ∧
    (runPolicies (mkEngine 512 "rolling_summary" 128 4 50 none false false)
        [(constOracle d S, List.range 120), (constOracle d S, [x])]).token_buffer =
      (runPolicies (mkEngine 512 "rolling_summary" 128 4 50 none false false)
          [(constOracle d S, List.range 120), (constOracle d S, [x])]).summary_tokens ++
        List.range' 60 60 ++ [x] := by
  have happ : applyPolicy (constOracle d S)
      (mkEngine 512 "rolling_summary" 128 4 50 none false false) (List.range 120) =
      .ok ({ mkEngine 512 "rolling_summary" 128 4 50 none false false with
              token_buffer := List.range 120
              tokens_since_summary := 120
              stats := { MemoryStats.init with total_policy_calls := 1 } },
            List.range 120) := by
    rfl
  have hstep : runPolicies (mkEngine 512 "rolling_summary" 128 4 50 none false false)
      [(constOracle d S, List.range 120), (constOracle d S, [x])] =
      runPolicies
        { mkEngine 512 "rolling_summary" 128 4 50 none false false with
          token_buffer := List.range 120
          tokens_since_summary := 120
          stats := { MemoryStats.init with total_policy_calls := 1 } }
        [(constOracle d S, [x])] := by
    conv_lhs => rw [runPolicies, happ]
  refine ⟨by rw [roll_first d S]; rfl, ?_, ?_, ?_⟩ <;> rw [hstep, roll_second_raw]

theorem qaFidelity_of_no_hallucination (pre post : String)
    (hh : qaHallucinated pre post = 0) : qaFidelity pre post = 1 := by
  unfold qaFidelity
  split
  · rfl
  · rw [hh]
    simp

theorem qaVerify_subset_pass (threshold : ℚ) (pre post : String) (hth : threshold ≤ 1)
    (h1 : extractNumbers post ⊆ extractNumbers pre)
    (h2 : extractProperNames post ⊆ extractProperNames pre)
    (h3 : extractQuotedStrings post ⊆ extractQuotedStrings pre) :
    qaVerify false threshold pre post = true ∧ qaFidelity pre post = 1 := by
  have hn1 : (extractNumbers post \ extractNumbers pre).card = 0 := by
    rw [Finset.card_eq_zero, Finset.sdiff_eq_empty_iff_subset]
    exact h1
  have hn2 : (extractProperNames post \ extractProperNames pre).card = 0 := by
    rw [Finset.card_eq_zero, Finset.sdiff_eq_empty_iff_subset]
    exact h2
  have hn3 : (extractQuotedStrings post \ extractQuotedStrings pre).card = 0 := by
    rw [Finset.card_eq_zero, Finset.sdiff_eq_empty_iff_subset]
    exact h3
  have hh : qaHallucinated pre post = 0 := by
    unfold qaHallucinated
    rw [hn1, hn2, hn3]
  have hfid := qaFidelity_of_no_hallucination pre post hh
  refine ⟨?_, hfid⟩
  unfold qaVerify
  split
  · rfl
  · split
    · rfl
    · simp [hfid, hth]

theorem qaVerify_single_hallucinated_number (threshold : ℚ) (pre post num : String)
    (hth : 0 < threshold) (hstrip : pyStrip post ≠ "")
    (hnum : extractNumbers post = {num}) (hnotin : num ∉ extractNumbers pre)
    (hnames : extractProperNames post = ∅) (hquotes : extractQuotedStrings post = ∅) :
    qaVerify false threshold pre post = false ∧ qaFidelity pre post < 1 := by
  have htot : qaTotalFacts post = 1 := by
    unfold qaTotalFacts
    rw [hnum, hnames, hquotes]
    simp
  have hsd : extractNumbers post \ extractNumbers pre = {num} := by
    rw [hnum]
    ext a
    simp only [Finset.mem_sdiff, Finset.mem_singleton]
    constructor
    · exact fun h => h.1
    · intro h
      subst h
      exact ⟨rfl, hnotin⟩
  have hh : qaHallucinated pre post = 1 := by
    unfold qaHallucinated
    rw [hsd, hnames, hquotes]
    simp
  have hfid : qaFidelity pre post = 0 := by
    unfold qaFidelity
    rw [if_neg (by rw [htot]; exact one_ne_zero), hh, htot]
    norm_num
  refine ⟨?_, by rw [hfid]; norm_num⟩
  unfold qaVerify
  rw [if_neg hstrip, if_neg (by rw [htot]; exact one_ne_zero)]
  simp [hfid]
  exact hth

/-- C7 counterexample: `"23"` is a strict substring of `"a 1234 b"`
(witnessed by the explicit split `"a 1" ++ "23" ++ "4 b"`), yet it fails
`verify` with fidelity `0 ≠ 1.0`: the word-boundary regexes extract the fact
`"23"` from the summary but only `"1234"` from the source. -/
theorem qa_gate_substring_cex :
    "a 1".toList ++ "23".toList ++ "4 b".toList = "a 1234 b".toList ∧
      "23" ≠ "a 1234 b" ∧
      qaVerify false (3 / 4) "a 1234 b" "23" = false ∧
      qaFidelity "a 1234 b" "23" < 1 :=
  ⟨by decide, by decide,
    qaVerify_single_hallucinated_number (3 / 4) "a 1234 b" "23" "23" (by norm_num)
      (by decide) (by decide) (by decide) (by decide) (by decide)⟩

/-- C7 (amended): a summary whose three extracted fact sets are contained in
the source's passes `verify` with fidelity `1.0` for any threshold at most
`1` (being a strict substring does not guarantee this, as the counterexample
shows: regex word boundaries can extract facts absent from the source); and
a summary whose only extractable fact is a number absent from the source has
fidelity below `1.0` and fails the lenient check for any positive
threshold. -/
theorem qa_gate_fact_subsets_pass_and_hallucinated_number_fails :
    (∀ (threshold : ℚ) (pre post : String), threshold ≤ 1 →
        extractNumbers post ⊆ extractNumbers pre →
        extractProperNames post ⊆ extractProperNames pre →
        extractQuotedStrings post ⊆ extractQuotedStrings pre →
        qaVerify false threshold pre post = true ∧ qaFidelity pre post = 1) ∧
    (∀ (threshold : ℚ) (pre post num : String), 0 < threshold →
        pyStrip post ≠ "" →
        extractNumbers post = {num} → num ∉ extractNumbers pre →
        extractProperNames post = ∅ → extractQuotedStrings post = ∅ →
        qaVerify false threshold pre post = false ∧ qaFidelity pre post < 1) :=
  ⟨fun th pre post hth h1 h2 h3 => qaVerify_subset_pass th pre post hth h1 h2 h3,
    fun th pre post num hth hstrip hnum hnotin hnames hquotes =>
      qaVerify_single_hallucinated_number th pre post num hth hstrip hnum hnotin
        hnames hquotes⟩

/-- Witness for C7 at concrete texts: `"1234"` (facts contained in the
source) passes against `"a 1234 b"`, and the single-number summary `"23"`
fails against the same source. -/
theorem qa_gate_fact_subsets_witness :
    (qaVerify false (3 / 4) "a 1234 b" "1234" = true ∧
        qaFidelity "a 1234 b" "1234" = 1) ∧
      qaVerify false (3 / 4) "a 1234 b" "23" = false ∧
        qaFidelity "a 1234 b" "23" < 1 :=
  ⟨qa_gate_fact_subsets_pass_and_hallucinated_number_fails.1 (3 / 4) "a 1234 b" "1234"
      (by norm_num) (by decide) (by decide) (by decide),
    qa_gate_fact_subsets_pass_and_hallucinated_number_fails.2 (3 / 4) "a 1234 b" "23" "23"
      (by norm_num) (by decide) (by decide) (by decide) (by decide) (by decide)⟩

/-! ## C4: importance selection outside the recency window -/

theorem rankRel_antisymm (scores : List ℚ) (i j : Nat)
    (h1 : rankRel scores i j) (h2 : rankRel scores j i) : i = j := by
  unfold rankRel at h1 h2
  rcases h1 with h1 | ⟨h1, h1'⟩ <;> rcases h2 with h2 | ⟨h2, h2'⟩
  · exact absurd h1 (lt_asymm h2)
  · exact absurd h2 (ne_of_lt h1)
  · exact absurd h1 (ne_of_lt h2)
  · exact Nat.le_antisymm h1' h2'

theorem strictPrec_iff (scores : List ℚ) (q p : Nat) :
    strictPrec scores q p ↔ rankRel scores q p ∧ q ≠ p := by
  unfold strictPrec rankRel
  constructor
  · rintro (h | ⟨h, h'⟩)
    · refine ⟨Or.inl h, ?_⟩
      rintro rfl
      exact lt_irrefl _ h
    · exact ⟨Or.inr ⟨h, Nat.le_of_lt h'⟩, Nat.ne_of_lt h'⟩
  · rintro ⟨h | ⟨h, h'⟩, hne⟩
    · exact Or.inl h
    · exact Or.inr ⟨h, Nat.lt_of_le_of_ne h' hne⟩

theorem sorted_take_mem (att : List ℚ) (L : List Nat) (p : Nat) :
    ∀ (b : Nat), L.Sorted (rankRel att) → L.Nodup →
      (p ∈ L.take b ↔
        p ∈ L ∧ (L.filter (fun q => decide (strictPrec att q p))).length < b) := by
  induction L with
  | nil => intro b _ _; simp
  | cons a t ih =>
    intro b hs hn
    have hs' : t.Sorted (rankRel att) := hs.of_cons
    have hrel := List.rel_of_sorted_cons hs
    have hna : a ∉ t := (List.nodup_cons.mp hn).1
    have hnt : t.Nodup := (List.nodup_cons.mp hn).2
    cases b with
    | zero => simp
    | succ b =>
      by_cases hpa : p = a
      · subst hpa
        have hfilt : (p :: t).filter (fun q => decide (strictPrec att q p)) = [] := by
          rw [List.filter_eq_nil_iff]
          intro q hq
          simp only [decide_eq_true_eq]
          intro hc
          rcases (strictPrec_iff att q p).mp hc with ⟨hr, hne⟩
          rcases List.mem_cons.mp hq with rfl | hq'
          · exact hne rfl
          · exact hne (rankRel_antisymm att q p hr (hrel q hq'))
        rw [List.take_succ_cons, hfilt]
        simp
      · by_cases hp : p ∈ t
        · have hne : a ≠ p := fun he => hna (he ▸ hp)
          have hap : strictPrec att a p := (strictPrec_iff att a p).mpr ⟨hrel p hp, hne⟩
          have hlen1 : ((a :: t).filter (fun q => decide (strictPrec att q p))).length =
              (t.filter (fun q => decide (strictPrec att q p))).length + 1 := by
            simp [List.filter_cons, hap]
          rw [List.take_succ_cons, hlen1]
          have hiff := ih b hs' hnt
          constructor
          · intro hmem
            rcases List.mem_cons.mp hmem with rfl | hmem'
            · exact absurd rfl hpa
            · rcases hiff.mp hmem' with ⟨hpt, hlt⟩
              exact ⟨List.mem_cons_of_mem a hpt, by omega⟩
          · rintro ⟨-, hlt⟩
            exact List.mem_cons_of_mem a (hiff.mpr ⟨hp, by omega⟩)
        · have h2 : p ∉ a :: t := by
            intro hmem
            rcases List.mem_cons.mp hmem with rfl | hmem'
            · exact hpa rfl
            · exact hp hmem'
          have h1 : p ∉ (a :: t).take (b + 1) := fun hmem =>
            h2 (List.take_subset _ _ hmem)
          constructor
          · intro hmem
            exact absurd hmem h1
          · rintro ⟨hmem, -⟩
            exact absurd hmem h2

theorem mem_ranked_take (att : List ℚ) (n b p : Nat) :
    p ∈ (importanceRanked att n).take b ↔ p ∈ List.range n ∧ beatCountLow att n p < b := by
  have hperm : (importanceRanked att n).Perm (List.range n) := List.perm_insertionSort _ _
  have hsort : (importanceRanked att n).Sorted (rankRel att) := List.sorted_insertionSort _ _
  have hnod : (importanceRanked att n).Nodup := hperm.nodup_iff.mpr (List.nodup_range n)
  have hcount : ((importanceRanked att n).filter
      (fun q => decide (strictPrec att q p))).length = beatCountLow att n p := by
    unfold beatCountLow
    exact (hperm.filter _).length_eq
  rw [sorted_take_mem att (importanceRanked att n) p b hsort hnod, hcount, hperm.mem_iff]

/-- C4 (amended): when the merged scores line up with the buffer and the
importance budget is positive, a position strictly below the recency-window
start is retained by `_evict_importance` exactly when it lies among the
`importance_budget` best-ranked positions of the stable descending sort —
score descending with ties broken in favour of the LOWER original index (the
older token), the opposite tie-break to the claimed one. -/
theorem importance_outside_window_top_low (att : List ℚ) (n : Nat) (ib rb : ℤ)
    (hlen : att.length = n) (hib : 0 < ib) (i : Nat)
    (hi : i < (max 0 ((n : ℤ) - rb)).toNat) :
    (i ∈ importanceKeepList att n ib rb ↔ i ∈ specTopLow att n ib.toNat) := by
  unfold importanceKeepList specTopLow
  dsimp only
  simp only [List.mem_filter, List.mem_range, decide_eq_true_eq]
  rw [if_pos (show att.length = n ∧ 0 < ib from ⟨hlen, hib⟩)]
  rw [mem_ranked_take att n ib.toNat i]
  simp only [List.mem_range]
  constructor
  · rintro ⟨hin, ⟨_, hb⟩ | hge⟩
    · exact ⟨hin, hb⟩
    · exact absurd (Nat.lt_of_lt_of_le hi hge) (Nat.lt_irrefl i)
  · rintro ⟨hin, hb⟩
    exact ⟨hin, Or.inl ⟨hin, hb⟩⟩

/-- Witness for C4 at three all-tied scores, importance budget 1, recency
budget 1 (window start 2): position 0 — the lowest tied index — is the kept
one below the window. -/
theorem importance_outside_window_top_low_witness :
    ([(1 : ℚ), 1, 1].length = 3 ∧ (0 : ℤ) < 1 ∧ 0 < (max 0 ((3 : ℤ) - 1)).toNat) ∧
      (0 ∈ importanceKeepList [(1 : ℚ), 1, 1] 3 1 1 ↔
        0 ∈ specTopLow [(1 : ℚ), 1, 1] 3 1) :=
  ⟨⟨rfl, by decide, by decide⟩,
    importance_outside_window_top_low [(1 : ℚ), 1, 1] 3 1 1 rfl (by decide) 0 (by decide)⟩

set_option maxRecDepth 20000 in
/-- C4 counterexample: fill an importance engine of capacity 66 with tokens
0..65, let attention give every position the same score 1 and feed one new
token; the code's budgets are `importance_budget = 1` and
`recency_budget = 64` (window start 2).  CPython's stable descending sort
breaks the all-way tie in favour of the LOWEST index, so the single budgeted
slot goes to position 0 and token 0 survives outside the window — whereas the
claimed ties-to-higher-index ranking puts position 65 first, predicting that
no position below the window is retained.  The engine run confirms token 0
stays in the buffer. -/
theorem importance_tie_break_cex :
    (importanceKeepList (List.replicate 66 1) 66 1 64).filter
        (fun i => decide (i < 2)) = [0] ∧
      (specTopHigh (List.replicate 66 1) 66 1).filter (fun i => decide (i < 2)) = [] ∧
      (evictImportance flatAttentionOracle impCexState [999]).toOption.map
          (fun p => p.1.token_buffer.filter (fun t => decide (t < 2))) = some [0] :=
  ⟨by decide, by decide, by decide⟩

/-! ## C8: knapsack budget respect and DP dominance -/

theorem contains_int_iff (l : List ℤ) (z : ℤ) : l.contains z = true ↔ z ∈ l := by
  simp

theorem sortInts_mem (l : List ℤ) (z : ℤ) : z ∈ sortInts l ↔ z ∈ l := by
  unfold sortInts
  exact (List.perm_insertionSort _ l).mem_iff

theorem ksizeSum_nonneg (l : List KItem) :
    (0 : ℤ) ≤ (l.map fun it => (ksize it : ℤ)).sum := by
  apply List.sum_nonneg
  intro x hx
  rcases List.mem_map.mp hx with ⟨it, -, rfl⟩
  exact Int.natCast_nonneg _

theorem greedyGo_spec (B : ℤ) : ∀ (l : List KItem) (tot : Nat),
    ∃ sub : List KItem, sub.Sublist l ∧ greedyGo B l tot = sub.map KItem.idx ∧
      (tot : ℤ) + ((sub.map fun it => (ksize it : ℤ)).sum) ≤ max B (tot : ℤ) := by
  intro l
  induction l with
  | nil =>
    intro tot
    exact ⟨[], List.nil_sublist _, rfl, by simp⟩
  | cons x xs ih =>
    intro tot
    by_cases h : ((tot : ℤ) + (ksize x : ℤ)) ≤ B
    · obtain ⟨sub', hsl', heq', hb'⟩ := ih (tot + ksize x)
      refine ⟨x :: sub', List.Sublist.cons₂ x hsl', by simp [greedyGo, h, heq'], ?_⟩
      simp only [List.map_cons, List.sum_cons]
      have h2 : ((tot + ksize x : ℕ) : ℤ) ≤ B := by
        push_cast
        exact h
      rw [max_eq_left h2] at hb'
      refine le_trans ?_ (le_max_left B (tot : ℤ))
      omega
    · obtain ⟨sub', hsl', heq', hb'⟩ := ih tot
      exact ⟨sub', List.Sublist.cons x hsl', by simp [greedyGo, h, heq'], hb'⟩

theorem knapRev_cons_ge (x : KItem) (l : List KItem) (w : Nat) :
    knapRev l w ≤ knapRev (x :: l) w := by
  simp only [knapRev]
  split
  · exact le_max_left _ _
  · exact le_refl _

theorem knapRev_ge (l : List KItem) (w : Nat) (sub : List KItem)
    (hsl : sub.Sublist l)
    (hsz : ((sub.map fun it => (ksize it : ℤ)).sum) ≤ (w : ℤ)) :
    (sub.map KItem.value).sum ≤ knapRev l w := by
  revert hsz
  induction hsl generalizing w with
  | slnil =>
    intro _
    simp [knapRev]
  | @cons l₁ l₂ a h ih =>
    intro hsz
    exact (ih w hsz).trans (knapRev_cons_ge a l₂ w)
  | @cons₂ l₁ l₂ a h ih =>
    intro hsz
    simp only [List.map_cons, List.sum_cons] at hsz ⊢
    have h0 := ksizeSum_nonneg l₁
    have hk : ksize a ≤ w := by omega
    have hs' : ((l₁.map fun it => (ksize it : ℤ)).sum) ≤ ((w - ksize a : Nat) : ℤ) := by
      omega
    have hv := ih (w - ksize a) hs'
    have hknap : knapRev (a :: l₂) w =
        max (knapRev l₂ w) (knapRev l₂ (w - ksize a) + a.value) := by
      simp only [knapRev]
      rw [if_pos hk]
    rw [hknap]
    refine le_trans ?_ (le_max_right _ _)
    linarith

theorem backtrackRev_spec (l : List KItem) : ∀ (w : Nat),
    ∃ sub : List KItem, sub.Sublist l ∧ backtrackRev l w = sub.map KItem.idx ∧
      ((sub.map fun it => (ksize it : ℤ)).sum) ≤ (w : ℤ) ∧
      (sub.map KItem.value).sum = knapRev l w := by
  induction l with
  | nil =>
    intro w
    exact ⟨[], List.nil_sublist _, rfl, by simp, by simp [knapRev]⟩
  | cons x xs ih =>
    intro w
    by_cases hne : knapRev (x :: xs) w ≠ knapRev xs w
    · have hk : ksize x ≤ w := by
        by_contra hk
        exact hne (by simp only [knapRev]; rw [if_neg hk])
      have hmax : knapRev (x :: xs) w = knapRev xs (w - ksize x) + x.value := by
        have hx : knapRev (x :: xs) w =
            max (knapRev xs w) (knapRev xs (w - ksize x) + x.value) := by
          simp only [knapRev]
          rw [if_pos hk]
        rcases max_choice (knapRev xs w) (knapRev xs (w - ksize x) + x.value) with hm | hm
        · exact absurd (hx.trans hm) hne
        · exact hx.trans hm
      obtain ⟨sub', hsl', heq', hsz', hval'⟩ := ih (w - ksize x)
      refine ⟨x :: sub', List.Sublist.cons₂ x hsl', ?_, ?_, ?_⟩
      · show backtrackRev (x :: xs) w = _
        simp only [backtrackRev]
        rw [if_pos hne, heq']
        rfl
      · simp only [List.map_cons, List.sum_cons]
        omega
      · simp only [List.map_cons, List.sum_cons, hval', hmax]
        ring
    · obtain ⟨sub', hsl', heq', hsz', hval'⟩ := ih w
      have he : knapRev (x :: xs) w = knapRev xs w := not_not.mp hne
      refine ⟨sub', List.Sublist.cons x hsl', ?_, hsz', by rw [hval', he]⟩
      simp only [backtrackRev]
      rw [if_neg hne]
      exact heq'

theorem selItems_perm (items sub : List KItem) (sel : List ℤ)
    (hnod : (items.map KItem.idx).Nodup) (hsub : sub.Subperm items)
    (hsel : ∀ z : ℤ, z ∈ sel ↔ z ∈ sub.map KItem.idx) :
    (selItems items sel).Perm sub := by
  obtain ⟨t, htp, htl⟩ := hsub
  have hitems : items.Nodup := List.Nodup.of_map _ hnod
  have hsubnd : sub.Nodup := (htp.nodup_iff).mp (htl.nodup hitems)
  have hsubset : ∀ {x : KItem}, x ∈ sub → x ∈ items := fun hx =>
    htl.subset (htp.mem_iff.mpr hx)
  have hinj := List.inj_on_of_nodup_map hnod
  apply (List.perm_ext_iff_of_nodup (hitems.filter _) hsubnd).mpr
  intro x
  rw [List.mem_filter]
  constructor
  · rintro ⟨hxi, hcont⟩
    have hzin : x.idx ∈ sel := (contains_int_iff sel x.idx).mp hcont
    rcases List.mem_map.mp ((hsel _).mp hzin) with ⟨y, hy, hyx⟩
    have hyx2 : y = x := hinj (hsubset hy) hxi hyx
    exact hyx2 ▸ hy
  · intro hxs
    refine ⟨hsubset hxs, ?_⟩
    exact (contains_int_iff sel x.idx).mpr ((hsel _).mpr (List.mem_map_of_mem _ hxs))

/-- C8: with pairwise-distinct item indices (as in every caller, where the
index names the span) and a nonnegative budget, the total
`max(1, end - start)` size of the greedy `choose_under_budget` selection
never exceeds the budget, and the exact DP variant `choose_under_budget_dp`
selects at least as much total value as the greedy heuristic. -/
theorem knapsack_budget_respect_and_dp_dominates (items : List KItem) (B : ℤ)
    (hnod : (items.map KItem.idx).Nodup) (hB : 0 ≤ B) :
    selSize items (choose_under_budget items B) ≤ B ∧
      selValue items (choose_under_budget items B) ≤
        selValue items (choose_under_budget_dp items B) := by
  unfold choose_under_budget choose_under_budget_dp
  by_cases hc : items.isEmpty ∨ B ≤ 0
  · rw [if_pos hc, if_pos hc]
    have h0 : selItems items [] = [] := by
      unfold selItems
      apply List.filter_eq_nil_iff.mpr
      intro a _
      simp
    constructor
    · simpa [selSize, h0] using hB
    · exact le_refl _
  · rw [if_neg hc, if_neg hc]
    obtain ⟨subG, hslG, heqG, hbG⟩ := greedyGo_spec B (List.insertionSort greedyRel items) 0
    obtain ⟨subD, hslD, heqD, hszD, hvalD⟩ := backtrackRev_spec items.reverse B.toNat
    rw [heqG, heqD]
    have hsubG : subG.Subperm items :=
      hslG.subperm.trans (List.perm_insertionSort greedyRel items).subperm
    have hsubD : subD.Subperm items :=
      hslD.subperm.trans (List.reverse_perm items).subperm
    have hpermG := selItems_perm items subG (sortInts (subG.map KItem.idx)) hnod hsubG
      (fun z => sortInts_mem _ z)
    have hpermD := selItems_perm items subD (sortInts (subD.map KItem.idx)) hnod hsubD
      (fun z => sortInts_mem _ z)
    have hsizeG : selSize items (sortInts (subG.map KItem.idx)) =
        ((subG.map fun it => (ksize it : ℤ)).sum) := by
      unfold selSize
      exact (hpermG.map _).sum_eq
    have hvalG : selValue items (sortInts (subG.map KItem.idx)) =
        (subG.map KItem.value).sum := by
      unfold selValue
      exact (hpermG.map _).sum_eq
    have hvalD2 : selValue items (sortInts (subD.map KItem.idx)) =
        (subD.map KItem.value).sum := by
      unfold selValue
      exact (hpermD.map _).sum_eq
    push_cast at hbG
    rw [max_eq_left hB] at hbG
    constructor
    · rw [hsizeG]
      omega
    · rw [hvalG, hvalD2, hvalD]
      have hsubGrev : subG.Subperm items.reverse :=
        hsubG.trans (List.reverse_perm items).symm.subperm
      obtain ⟨t, htp, htl⟩ := hsubGrev
      have hts : ((t.map fun it => (ksize it : ℤ)).sum) =
          ((subG.map fun it => (ksize it : ℤ)).sum) := (htp.map _).sum_eq
      have htv : (t.map KItem.value).sum = (subG.map KItem.value).sum := (htp.map _).sum_eq
      have hBt : ((B.toNat : ℤ)) = B := Int.toNat_of_nonneg hB
      have hle := knapRev_ge items.reverse B.toNat t htl (by rw [hts]; omega)
      rw [htv] at hle
      exact hle

/-- Witness for C8 at the docstring's example: three spans of size 10 with
values 5, 3, 8 and budget 25. -/
theorem knapsack_budget_respect_witness :
    ((([⟨0, 0, 10, 5⟩, ⟨1, 10, 20, 3⟩, ⟨2, 20, 30, 8⟩] : List KItem).map
        KItem.idx).Nodup ∧ (0 : ℤ) ≤ 25) ∧
      (selSize [⟨0, 0, 10, 5⟩, ⟨1, 10, 20, 3⟩, ⟨2, 20, 30, 8⟩]
          (choose_under_budget [⟨0, 0, 10, 5⟩, ⟨1, 10, 20, 3⟩, ⟨2, 20, 30, 8⟩] 25) ≤ 25 ∧
        selValue [⟨0, 0, 10, 5⟩, ⟨1, 10, 20, 3⟩, ⟨2, 20, 30, 8⟩]
            (choose_under_budget [⟨0, 0, 10, 5⟩, ⟨1, 10, 20, 3⟩, ⟨2, 20, 30, 8⟩] 25) ≤
          selValue [⟨0, 0, 10, 5⟩, ⟨1, 10, 20, 3⟩, ⟨2, 20, 30, 8⟩]
            (choose_under_budget_dp [⟨0, 0, 10, 5⟩, ⟨1, 10, 20, 3⟩, ⟨2, 20, 30, 8⟩] 25)) :=
  ⟨⟨by decide, by decide⟩,
    knapsack_budget_respect_and_dp_dominates
      [⟨0, 0, 10, 5⟩, ⟨1, 10, 20, 3⟩, ⟨2, 20, 30, 8⟩] 25 (by decide) (by decide)⟩
